import Mathlib

/-!
Verification of the `bcp` transfer engine (`pkg/transfer/transfer.go`).

The Go code is shallowly embedded: Go errors become the `GoError` structure
(the API error code that `errors.As` would extract, plus the `Error()` text);
the AWS S3/SSM clients become oracles inside an `Env`; stateful orchestration
code becomes explicit state passing over a `St` (issued-command counter plus an
event trace).  Every definition mirrors the corresponding Go function.
-/

/-- `listInfix sub l` is true iff `sub` occurs as a contiguous infix of `l`;
it embeds Go `strings.Contains` on the underlying character lists. -/
def listInfix (sub : List Char) : List Char → Bool
  | [] => sub.isEmpty
  | c :: rest => sub.isPrefixOf (c :: rest) || listInfix sub rest

/-- Go `strings.Contains(s, sub)`. -/
def strContains (s sub : String) : Bool :=
  listInfix sub.data s.data

/-- Go `strings.ToLower` (ASCII, which covers every pattern the code uses). -/
def lowerStr (s : String) : String :=
  String.mk (s.data.map Char.toLower)

/-- Go `strings.Contains(strings.ToLower(s), strings.ToLower(sub))`,
the case-insensitive match used by `isRetryableError`. -/
def containsCI (s sub : String) : Bool :=
  strContains (lowerStr s) (lowerStr sub)

/-- Go `strings.TrimPrefix(s, pre)`. -/
def trimPfx (s pre : String) : String :=
  if pre.data.isPrefixOf s.data then String.mk (s.data.drop pre.data.length) else s

/-- Go `strings.TrimSpace`. -/
def trimSpace (s : String) : String :=
  String.mk (((s.data.dropWhile Char.isWhitespace).reverse.dropWhile
      Char.isWhitespace).reverse)

/-- A Go error value as the transfer code observes it: the structured API error
code that `errors.As` with `smithy.APIError` would surface (if any), and the
text produced by `Error()`.  `fmt.Errorf("...: %w", err)` wrapping prepends to
the text and keeps the code visible to `errors.As`. -/
structure GoError where
  apiCode : Option String
  msg : String
deriving DecidableEq

/-- `fmt.Errorf(pre + "%w", e)`: prefixes the message, keeps the API code. -/
def wrapErr (pre : String) (e : GoError) : GoError :=
  ⟨e.apiCode, pre ++ e.msg⟩

/-- The non-retryable permission/authentication API codes
(first `switch` in `isRetryableError`). -/
def authCodes : List String :=
  ["AccessDenied", "AccessDeniedException", "UnauthorizedAccess",
   "Forbidden", "InvalidAccessKeyId", "SignatureDoesNotMatch",
   "UnrecognizedClientException", "InvalidClientTokenId",
   "ExpiredToken", "ExpiredTokenException", "InvalidToken"]

/-- The retryable transient-service API codes (second `switch`). -/
def transientCodes : List String :=
  ["RequestTimeout", "ServiceUnavailable", "ThrottlingException",
   "RequestLimitExceeded", "TooManyRequestsException", "InternalError",
   "RequestThrottled", "Throttling"]

/-- The non-retryable permission substrings (`nonRetryableStrings`). -/
def nonRetryableTexts : List String :=
  ["access denied", "unauthorized", "forbidden", "invalid credentials",
   "permission denied", "not authorized"]

/-- The retryable network-transience substrings (`retryableStrings`). -/
def retryableTexts : List String :=
  ["connection reset", "connection refused", "timeout", "temporary failure",
   "TLS handshake timeout", "EOF", "i/o timeout"]

/-- The substring tier of `isRetryableError`: non-retryable substrings are
checked first, then retryable ones, default false. -/
def textClassify (s : String) : Bool :=
  if nonRetryableTexts.any (fun p => containsCI s p) then false
  else if retryableTexts.any (fun p => containsCI s p) then true
  else false

/-- `isRetryableError` from `transfer.go`: nil is not retryable; if `errors.As`
exposes an API code, permission codes answer false and transient codes answer
true; in every remaining case the error text is classified by substring. -/
def isRetryableError : Option GoError → Bool
  | none => false
  | some e =>
    match e.apiCode with
    | some c =>
      if c ∈ authCodes then false
      else if c ∈ transientCodes then true
      else textClassify e.msg
    | none => textClassify e.msg

/-- The exhaustion error of `retryOperation`:
`fmt.Errorf("operation failed after %d retries: %w", maxRetries, lastErr)`. -/
def retriesWrap (maxRetries : Nat) (e : GoError) : GoError :=
  ⟨e.apiCode, "operation failed after " ++ Nat.repr maxRetries ++ " retries: " ++ e.msg⟩

/-- The loop of `retryOperation`, embedded with an explicit state `σ` standing
for the side effects of the closure (`op`).  `attempt` is the loop counter,
`fuel` the number of retries still allowed (`maxRetries - attempt`).  The
result carries the returned error (if any), the final closure state, and the
list of back-off sleeps (in seconds) performed, in order: no sleep before
attempt 0, `baseDelay * 2 ^ (attempt - 1)` before every later attempt. -/
def retryAux {σ : Type} (op : σ → Option GoError × σ) (maxRetries baseDelay : Nat) :
    Nat → Nat → σ → Option GoError × σ × List Nat
  | attempt, 0, s =>
    let sl : List Nat := if attempt = 0 then [] else [baseDelay * 2 ^ (attempt - 1)]
    match op s with
    | (none, s₂) => (none, s₂, sl)
    | (some e, s₂) =>
      if isRetryableError (some e) then (some (retriesWrap maxRetries e), s₂, sl)
      else (some e, s₂, sl)
  | attempt, fuel + 1, s =>
    let sl : List Nat := if attempt = 0 then [] else [baseDelay * 2 ^ (attempt - 1)]
    match op s with
    | (none, s₂) => (none, s₂, sl)
    | (some e, s₂) =>
      if isRetryableError (some e) then
        let r := retryAux op maxRetries baseDelay (attempt + 1) fuel s₂
        (r.1, r.2.1, sl ++ r.2.2)
      else (some e, s₂, sl)

/-- `retryOperation(operation, maxRetries, baseDelay)` from `transfer.go`. -/
def retryOperation {σ : Type} (op : σ → Option GoError × σ) (maxRetries baseDelay : Nat)
    (s : σ) : Option GoError × σ × List Nat :=
  retryAux op maxRetries baseDelay 0 maxRetries s

/-- `retryOperation` run against a pure sequence of per-attempt results, with a
counter state recording how often the closure was invoked. -/
def retryCounted (results : Nat → Option GoError) (maxRetries baseDelay : Nat) :
    Option GoError × Nat × List Nat :=
  retryOperation (fun n => (results n, n + 1)) maxRetries baseDelay 0

/-- An SSM command invocation status, as `runSSMCommand` distinguishes them.
`other` stands for every non-terminal status (Pending, InProgress, ...). -/
inductive CmdStatus
  | success
  | failed
  | cancelled
  | timedOut
  | other
deriving DecidableEq

/-- The `%s` rendering of a status in the command-failure message. -/
def statusName : CmdStatus → String
  | .success => "Success"
  | .failed => "Failed"
  | .cancelled => "Cancelled"
  | .timedOut => "TimedOut"
  | .other => "InProgress"

/-- One `GetCommandInvocation` answer: status plus captured output streams. -/
structure FetchRes where
  status : CmdStatus
  stdout : String
  stderr : String
deriving DecidableEq

/-- The behaviour of one SSM command execution: either `SendCommand` fails, or
it succeeds and the i-th `GetCommandInvocation` poll is described by `fetch i`
(`none` = the status fetch itself errors). -/
inductive CmdBehavior
  | sendErr (e : GoError)
  | sent (fetch : Nat → Option FetchRes)

/-- `fmt.Errorf("command failed with status %s: %s", status, stderr)`. -/
def statusFailErr (st : CmdStatus) (stderr : String) : GoError :=
  ⟨none, "command failed with status " ++ statusName st ++ ": " ++ stderr⟩

/-- `fmt.Errorf("command timed out waiting for completion")`. -/
def pollTimeoutErr : GoError :=
  ⟨none, "command timed out waiting for completion"⟩

/-- `fmt.Errorf("failed to send command: %w", err)`. -/
def sendWrapErr (e : GoError) : GoError :=
  wrapErr "failed to send command: " e

/-- The polling loop of `runSSMCommand`: up to `remaining` iterations of
sleep-2-seconds-then-fetch starting at poll index `i`.  Returns the result,
the number of polling attempts performed, and the sleeps (each 2 seconds).
A fetch error (`none`) or a non-terminal status consumes one attempt and
continues; Success returns stdout; Failed/Cancelled/TimedOut return the
status error; exhaustion returns the distinct poll-timeout error. -/
def pollLoop (fetch : Nat → Option FetchRes) : Nat → Nat → Except GoError String × Nat × List Nat
  | _, 0 => (Except.error pollTimeoutErr, 0, [])
  | i, n + 1 =>
    match fetch i with
    | none =>
      let r := pollLoop fetch (i + 1) n
      (r.1, r.2.1 + 1, 2 :: r.2.2)
    | some fr =>
      match fr.status with
      | .success => (Except.ok fr.stdout, 1, [2])
      | .failed => (Except.error (statusFailErr .failed fr.stderr), 1, [2])
      | .cancelled => (Except.error (statusFailErr .cancelled fr.stderr), 1, [2])
      | .timedOut => (Except.error (statusFailErr .timedOut fr.stderr), 1, [2])
      | .other =>
        let r := pollLoop fetch (i + 1) n
        (r.1, r.2.1 + 1, 2 :: r.2.2)

/-- `runSSMCommand` from `transfer.go`, as a function of the behaviour of the
one command it issues: a failed send aborts with a wrapped error, otherwise
the invocation is polled with `maxAttempts = 30`. -/
def runSSMCommand : CmdBehavior → Except GoError String
  | .sendErr e => Except.error (sendWrapErr e)
  | .sent fetch => (pollLoop fetch 0 30).1

/-- `checkAWSCLIInstalled` from `transfer.go`, as a function of the behaviour
of the `which aws` command it runs: a run error whose text contains
"command failed" means the tool is absent (false, no error); any other run
error propagates; on success the tool is present iff the output contains
"/aws". -/
def checkAWSCLIResult (beh : CmdBehavior) : Except GoError Bool :=
  match runSSMCommand beh with
  | Except.error e =>
    if strContains e.msg "command failed" then Except.ok false
    else Except.error e
  | Except.ok out => Except.ok (strContains out "/aws")

/-- A poll answer on which the loop keeps going: a status-fetch error, or any
status outside {Success, Failed, Cancelled, TimedOut}. -/
def isNonTerminal : Option FetchRes → Bool
  | none => true
  | some fr =>
    match fr.status with
    | .other => true
    | _ => false

/-- A local directory entry as `filepath.Walk` visits it: a regular file, a
sub-directory, or an entry whose visit reports a walk/stat error. -/
inductive FNode
  | file (name : String)
  | dir (name : String) (entries : List FNode)
  | errEntry (name : String) (e : GoError)

/-- Slash-join of path components. -/
def joinSlash : List String → String
  | [] => ""
  | [a] => a
  | a :: b :: rest => a ++ "/" ++ joinSlash (b :: rest)

/-- Split a character list at every separator: the element decomposition that
Go's path algorithms perform with index scans over the byte string. -/
def splitSlash : List Char → List (List Char)
  | [] => [[]]
  | c :: rest =>
    if c = '/' then [] :: splitSlash rest
    else
      match splitSlash rest with
      | [] => [[c]]
      | g :: gs => (c :: g) :: gs

/-- Join path elements with separator characters (inverse of `splitSlash`). -/
def joinComps : List (List Char) → List Char
  | [] => []
  | [c] => c
  | c :: c₂ :: rest => c ++ '/' :: joinComps (c₂ :: rest)

/-- A path assembled from an optional leading separator and its elements. -/
def renderPath (rooted : Bool) (comps : List String) : String :=
  (if rooted then "/" else "") ++ joinSlash comps

/-- The element processing of Go `filepath.Clean` (Unix): empty and "."
elements are dropped; ".." pops the last kept element, is absorbed at the
root, and is kept when a relative path has nothing left to pop; every other
element is kept.  `stack` holds the kept elements in reverse. -/
def cleanComps (rooted : Bool) : List (List Char) → List (List Char) → List (List Char)
  | stack, [] => stack.reverse
  | stack, comp :: rest =>
    if comp = [] ∨ comp = ['.'] then cleanComps rooted stack rest
    else if comp = ['.', '.'] then
      match stack with
      | top :: stk₂ =>
        if top = ['.', '.'] then cleanComps rooted (comp :: stack) rest
        else cleanComps rooted stk₂ rest
      | [] => if rooted then cleanComps rooted [] rest else cleanComps rooted [comp] rest
    else cleanComps rooted (comp :: stack) rest

/-- Whether a path begins with the separator. -/
def isRooted (p : String) : Bool :=
  match p.data with
  | c :: _ => c == '/'
  | [] => false

/-- Go `filepath.Clean` (Unix): the empty path gives "."; otherwise the
elements are normalized by `cleanComps` and reassembled behind the leading
separator, an empty outcome giving "." (or "/" when rooted).  This is the
element-level rendering of Clean's buffer loop, which walks the elements in
exactly this order. -/
def goClean (p : String) : String :=
  if p.data = [] then "."
  else
    let comps := cleanComps (isRooted p) [] (splitSlash p.data)
    if comps = [] then (if isRooted p then "/" else ".")
    else renderPath (isRooted p) (comps.map String.mk)

/-- Go `filepath.ToSlash` with the Unix separator: the identity. -/
def goToSlash (p : String) : String := p

/-- Go `filepath.Join` of two elements (Unix): leading empty elements are
skipped, the rest joined with a separator and cleaned. -/
def goJoin (a b : String) : String :=
  if a = "" then (if b = "" then "" else goClean b)
  else goClean (a ++ "/" ++ b)

/-- Go `filepath.Base` (Unix rules): empty path gives ".", trailing slashes
are stripped, the component after the last slash is kept, and an all-slash
path gives "/". -/
def filepathBase (p : String) : String :=
  if p.data = [] then "."
  else
    let l := (p.data.reverse.dropWhile (fun c => c == '/')).reverse
    let l₂ := (l.reverse.takeWhile (fun c => c != '/')).reverse
    if l₂ = [] then "/" else String.mk l₂

/-- Go `filepath.Dir` (Unix): everything up to and including the final
separator (empty when there is none), cleaned — so `Dir("data") = "."` but
`Dir("data/") = "data"`. -/
def goDir (p : String) : String :=
  goClean (String.mk ((p.data.reverse.dropWhile (fun c => c != '/')).reverse))

/-- Drop the longest common element prefix of two decompositions, returning
both remainders. -/
def dropCommon : List (List Char) → List (List Char) → List (List Char) × List (List Char)
  | [], t => ([], t)
  | b, [] => (b, [])
  | b₁ :: bs, t₁ :: ts =>
    if b₁ = t₁ then dropCommon bs ts else (b₁ :: bs, t₁ :: ts)

/-- Go `filepath.Rel` (Unix).  Both paths are cleaned; identical paths give
".".  A "." base becomes empty; a rootedness mismatch is an error.  The
element scan is rendered on the `splitSlash` decompositions — cleaned paths
have no interior empty elements, so element-by-element comparison agrees
with the index loop: the common prefix is dropped; a remaining base ".."
element is an error; when base elements remain (a lone final empty element
stands for an exhausted base) each contributes one "..", followed by the
remaining target elements. -/
def goRel (basepath targpath : String) : Except GoError String :=
  let base := goClean basepath
  let targ := goClean targpath
  if targ = base then Except.ok "."
  else
    let base₂ := if base = "." then "" else base
    if isRooted base₂ != isRooted targ then
      Except.error ⟨none, "Rel: can\x27t make " ++ targ ++ " relative to " ++ base₂⟩
    else
      let r := dropCommon (splitSlash base₂.data) (splitSlash targ.data)
      if r.1.head? = some ['.', '.'] then
        Except.error ⟨none, "Rel: can\x27t make " ++ targ ++ " relative to " ++ base₂⟩
      else
        let tPart := if r.2 = [] ∨ r.2 = [[]] then [] else r.2
        if r.1 = [] ∨ r.1 = [[]] then
          Except.ok (String.mk (joinComps tPart))
        else
          Except.ok (String.mk (joinComps (List.replicate r.1.length ['.', '.'] ++ tPart)))

/-- A well-formed path element, as directory enumeration produces them:
nonempty, not "." or "..", separator-free. -/
def niceName (c : String) : Bool :=
  !c.data.isEmpty && !(c == ".") && !(c == "..") && !(c.data.contains '/')

mutual

/-- Every entry name in the tree is a well-formed path element. -/
def niceTreeNode : FNode → Bool
  | .file name => niceName name
  | .dir name entries => niceName name && niceTreeList entries
  | .errEntry name _ => niceName name

/-- `niceTreeNode` over sibling entries. -/
def niceTreeList : List FNode → Bool
  | [] => true
  | n :: rest => niceTreeNode n && niceTreeList rest

end

mutual

/-- The `filepath.Walk` closure of `uploadDirectory` on one entry.  `root` is
the `localPath` the walk started from and `cur` the path of the directory
being visited (the root itself at depth 0, extended per level by
`filepath.Join`, exactly as Walk builds the visited paths).  An erroring
entry aborts with its error; a directory contributes no object of its own
and its entries are walked under the joined path; a file at
`path := Join(cur, name)` is uploaded under the key
`ToSlash(Rel(Dir(root), path))` — a `Rel` error aborting wrapped — with the
oracle `put` standing for `uploadFile`'s result.  Returns the uploaded keys
in walk order. -/
def walkNode (put : String → Option GoError) (root cur : String) :
    FNode → Except GoError (List String)
  | .file name =>
    match goRel (goDir root) (goJoin cur name) with
    | Except.error e => Except.error (wrapErr "failed to get relative path: " e)
    | Except.ok relPath =>
      match put (goToSlash relPath) with
      | some e => Except.error e
      | none => Except.ok [goToSlash relPath]
  | .dir name entries => walkList put root (goJoin cur name) entries
  | .errEntry _ e => Except.error e

/-- `walkNode` over a list of sibling entries, in walk order; the first error
aborts the remainder. -/
def walkList (put : String → Option GoError) (root cur : String) :
    List FNode → Except GoError (List String)
  | [] => Except.ok []
  | n :: rest =>
    match walkNode put root cur n with
    | Except.error e => Except.error e
    | Except.ok ks =>
      match walkList put root cur rest with
      | Except.error e => Except.error e
      | Except.ok ks₂ => Except.ok (ks ++ ks₂)

end

/-- `uploadDirectory(ctx, client, bucketName, localPath)`: walk the tree
rooted at `localPath` (entries `entries`), computing each file's S3 key as
`filepath.ToSlash(filepath.Rel(filepath.Dir(localPath), path))`
(transfer.go lines 199-208). -/
def uploadDirectory (put : String → Option GoError) (localPath : String)
    (entries : List FNode) : Except GoError (List String) :=
  walkList put localPath localPath entries

/-- The result of `os.Stat(localPath)` as `uploadToS3` uses it. -/
inductive StatResult
  | statErr (e : GoError)
  | statFile
  | statDir (entries : List FNode)

/-- `uploadToS3(ctx, client, bucketName, localPath)`: stat errors abort
wrapped; a directory is walked by `uploadDirectory`; a single file is uploaded
under the key `filepath.Base(localPath)`. -/
def uploadToS3 (put : String → Option GoError) (stat : StatResult)
    (localPath : String) : Except GoError (List String) :=
  match stat with
  | .statErr e => Except.error (wrapErr ("failed to stat " ++ localPath ++ ": ") e)
  | .statDir entries => uploadDirectory put localPath entries
  | .statFile =>
    match put (filepathBase localPath) with
    | some e => Except.error e
    | none => Except.ok [filepathBase localPath]

mutual

/-- The relative component paths of all regular files in an entry, in walk
order (directories contribute no path of their own). -/
def relFilesNode : FNode → List (List String)
  | .file name => [[name]]
  | .dir name entries => (relFilesList entries).map (fun p => name :: p)
  | .errEntry _ _ => []

/-- `relFilesNode` over sibling entries, in walk order. -/
def relFilesList : List FNode → List (List String)
  | [] => []
  | n :: rest => relFilesNode n ++ relFilesList rest

end

mutual

/-- The first walk/stat error a walk of the entry would report, if any. -/
def firstErrNode : FNode → Option GoError
  | .file _ => none
  | .dir _ entries => firstErrList entries
  | .errEntry _ e => some e

/-- `firstErrNode` over sibling entries, in walk order. -/
def firstErrList : List FNode → Option GoError
  | [] => none
  | n :: rest =>
    match firstErrNode n with
    | some e => some e
    | none => firstErrList rest

end

/-- `model.TransferConfig`: the fields `ExecuteToRemoteWithClients` and
`ExecuteFromRemoteWithClients` read. -/
structure TransferConfig where
  source : String
  ssmInstanceID : String
  destination : String
  bucketName : String
  maxRetries : Nat
  retryDelay : Nat
  isDirectory : Bool

/-- The external world an orchestrated transfer interacts with: `ssmBeh i` is
the behaviour of the i-th SSM command issued during the transfer;
`uploadAttempts j` / `downloadAttempts j` is the result of the j-th attempt of
the local S3 upload / download closure handed to `retryOperation`;
`cleanupResult` is the result of `cleanupS3Objects`; `nowUnix` is
`time.Now().Unix()`. -/
structure Env where
  ssmBeh : Nat → CmdBehavior
  uploadAttempts : Nat → Option GoError
  downloadAttempts : Nat → Option GoError
  cleanupResult : Option GoError
  nowUnix : Nat

/-- One externally visible action of a transfer, recorded in order. -/
inductive Event
  | s3Upload (attempt : Nat) (result : Option GoError)
  | sendSSM (idx : Nat) (commands : List String)
  | s3Download (attempt : Nat) (result : Option GoError)
  | s3Cleanup (bucket key : String) (isDir : Bool)
deriving DecidableEq

/-- The orchestration state: how many SSM commands have been sent so far, and
the trace of actions performed. -/
structure St where
  cmdIdx : Nat
  trace : List Event

/-- Issue one SSM command (`runSSMCommand` call site): consumes the next
command behaviour and records the send. -/
def runSSMCommandSt (env : Env) (commands : List String) (st : St) :
    Except GoError String × St :=
  (runSSMCommand (env.ssmBeh st.cmdIdx),
   ⟨st.cmdIdx + 1, st.trace ++ [Event.sendSSM st.cmdIdx commands]⟩)

/-- `checkAWSCLIInstalled` call site. -/
def checkAWSCLIInstalled (env : Env) (st : St) : Except GoError Bool × St :=
  (checkAWSCLIResult (env.ssmBeh st.cmdIdx),
   ⟨st.cmdIdx + 1, st.trace ++ [Event.sendSSM st.cmdIdx ["which aws"]]⟩)

/-- The `uploadToS3` retry closure of `ExecuteToRemoteWithClients`: the j-th
attempt returns `env.uploadAttempts j`. -/
def uploadOp (env : Env) : Nat × St → Option GoError × (Nat × St)
  | (j, st) =>
    (env.uploadAttempts j,
     (j + 1, ⟨st.cmdIdx, st.trace ++ [Event.s3Upload j (env.uploadAttempts j)]⟩))

/-- The `downloadFromS3` retry closure of `ExecuteFromRemoteWithClients`. -/
def downloadOp (env : Env) : Nat × St → Option GoError × (Nat × St)
  | (j, st) =>
    (env.downloadAttempts j,
     (j + 1, ⟨st.cmdIdx, st.trace ++ [Event.s3Download j (env.downloadAttempts j)]⟩))

/-- The `runSSMCommand` retry closure (used for the remote fetch command and
the remote push command): each attempt issues the command once and converts
the `Except` result to the closure's returned error. -/
def ssmOp (env : Env) (commands : List String) : St → Option GoError × St
  | st =>
    match runSSMCommandSt env commands st with
    | (Except.ok _, st₂) => (none, st₂)
    | (Except.error e, st₂) => (some e, st₂)

/-- `strings.TrimPrefix(transferConfig.Source, "./")` (line 65). -/
def toRemoteUploadPath (source : String) : String :=
  trimPfx source "./"

/-- `fmt.Sprintf("s3://%s/%s", bucketName, uploadPath)` for a to-remote
transfer (line 66). -/
def toRemoteS3URL (bucketName source : String) : String :=
  "s3://" ++ bucketName ++ "/" ++ toRemoteUploadPath source

/-- The remote fetch command of a to-remote transfer (lines 87-92). -/
def toRemoteDownloadCommand (cfg : TransferConfig) : String :=
  if cfg.isDirectory then
    "aws s3 cp " ++ toRemoteS3URL cfg.bucketName cfg.source ++ " "
      ++ cfg.destination ++ " --recursive"
  else
    "aws s3 cp " ++ toRemoteS3URL cfg.bucketName cfg.source ++ " " ++ cfg.destination

/-- `ExecuteToRemoteWithClients`: upload to S3 under retry, preflight the AWS
CLI on the instance, fetch from S3 on the instance under retry, then a
best-effort `ls -la` verification whose failure is only logged. -/
def ExecuteToRemoteWithClients (cfg : TransferConfig) (env : Env) :
    Option GoError × List Event :=
  let up := retryOperation (uploadOp env) cfg.maxRetries cfg.retryDelay (0, ⟨0, []⟩)
  match up.1 with
  | some e => (some (wrapErr "failed to upload to S3: " e), up.2.1.2.trace)
  | none =>
    match checkAWSCLIInstalled env up.2.1.2 with
    | (Except.error e, st₂) =>
      (some (wrapErr "failed to check AWS CLI installation: " e), st₂.trace)
    | (Except.ok false, st₂) =>
      (some ⟨none, "AWS CLI is not installed on instance " ++ cfg.ssmInstanceID⟩,
       st₂.trace)
    | (Except.ok true, st₂) =>
      let dl := retryOperation (ssmOp env [toRemoteDownloadCommand cfg])
        cfg.maxRetries cfg.retryDelay st₂
      match dl.1 with
      | some e =>
        (some (wrapErr "failed to download from S3 to remote instance: " e),
         dl.2.1.trace)
      | none =>
        let vr := runSSMCommandSt env ["ls -la " ++ cfg.destination] dl.2.1
        (none, vr.2.trace)

/-- `fmt.Sprintf("bcp-download-%d", time.Now().Unix())` (line 119): the
generated unique S3 key of a from-remote transfer. -/
def fromRemoteUploadPath (now : Nat) : String :=
  "bcp-download-" ++ Nat.repr now

/-- The remote directory-probe command of a from-remote transfer (line 134). -/
def fromRemoteCheckDirCommand (cfg : TransferConfig) : String :=
  "test -d " ++ cfg.source ++ " && echo \x27directory\x27 || echo \x27file\x27"

/-- The remote push command of a from-remote transfer (lines 143-148). -/
def fromRemoteUploadCommand (cfg : TransferConfig) (now : Nat) (isDir : Bool) : String :=
  if isDir then
    "aws s3 cp " ++ cfg.source ++ " s3://" ++ cfg.bucketName ++ "/"
      ++ fromRemoteUploadPath now ++ " --recursive"
  else
    "aws s3 cp " ++ cfg.source ++ " s3://" ++ cfg.bucketName ++ "/"
      ++ fromRemoteUploadPath now

/-- `ExecuteFromRemoteWithClients`: preflight the AWS CLI, probe whether the
remote source is a directory, push it to S3 under retry, download it locally
under retry, then clean up the generated key — a cleanup error is only
logged (the `match` on `env.cleanupResult` mirrors the `if err := ...` that
drops the error), and the transfer still returns success. -/
def ExecuteFromRemoteWithClients (cfg : TransferConfig) (env : Env) :
    Option GoError × List Event :=
  let uploadPath := fromRemoteUploadPath env.nowUnix
  match checkAWSCLIInstalled env ⟨0, []⟩ with
  | (Except.error e, st₁) =>
    (some (wrapErr "failed to check AWS CLI installation: " e), st₁.trace)
  | (Except.ok false, st₁) =>
    (some ⟨none, "AWS CLI is not installed on instance " ++ cfg.ssmInstanceID⟩,
     st₁.trace)
  | (Except.ok true, st₁) =>
    match runSSMCommandSt env [fromRemoteCheckDirCommand cfg] st₁ with
    | (Except.error e, st₂) =>
      (some (wrapErr "failed to check if source is directory: " e), st₂.trace)
    | (Except.ok out, st₂) =>
      let isDirectory := trimSpace out == "directory"
      let upl := retryOperation
        (ssmOp env [fromRemoteUploadCommand cfg env.nowUnix isDirectory])
        cfg.maxRetries cfg.retryDelay st₂
      match upl.1 with
      | some e =>
        (some (wrapErr "failed to upload from remote instance to S3: " e),
         upl.2.1.trace)
      | none =>
        let dl := retryOperation (downloadOp env) cfg.maxRetries cfg.retryDelay
          (0, upl.2.1)
        match dl.1 with
        | some e => (some (wrapErr "failed to download from S3: " e), dl.2.1.2.trace)
        | none =>
          let st₅ : St := ⟨dl.2.1.2.cmdIdx,
            dl.2.1.2.trace ++ [Event.s3Cleanup cfg.bucketName uploadPath isDirectory]⟩
          match env.cleanupResult with
          | some _ => (none, st₅.trace)
          | none => (none, st₅.trace)

/-! ### Decimal representation helpers (for uniqueness of generated keys) -/

/-- Numeric value of a decimal digit character. -/
def digitVal (c : Char) : Nat := c.toNat - 48

/-- Decimal value of a digit string. -/
def digitsVal (l : List Char) : Nat :=
  l.foldl (fun a c => 10 * a + digitVal c) 0

theorem foldl_digitsVal (s : Nat) (l : List Char) :
    l.foldl (fun a c => 10 * a + digitVal c) s = s * 10 ^ l.length + digitsVal l := by
  induction l generalizing s with
  | nil => simp [digitsVal]
  | cons c t ih =>
    simp only [List.foldl, digitsVal] at *
    rw [ih, ih (10 * 0 + digitVal c), List.length_cons, pow_succ]
    ring

theorem digitVal_digitChar : ∀ d : Nat, d < 10 → digitVal (Nat.digitChar d) = d := by
  decide

theorem toDigitsCore_val (fuel : Nat) : ∀ n acc, n < 10 ^ fuel →
    digitsVal (Nat.toDigitsCore 10 fuel n acc) = n * 10 ^ acc.length + digitsVal acc := by
  induction fuel with
  | zero =>
    intro n acc h
    simp at h
    subst h
    simp [Nat.toDigitsCore]
  | succ f ih =>
    intro n acc h
    rw [Nat.toDigitsCore]
    by_cases h0 : n / 10 = 0
    · simp only [h0, if_pos rfl]
      have hn : n < 10 := by omega
      simp only [digitsVal, List.foldl]
      rw [foldl_digitsVal]
      rw [digitVal_digitChar _ (Nat.mod_lt n (by norm_num))]
      rw [Nat.mod_eq_of_lt hn]
      simp [digitsVal]
    · simp only [if_neg h0]
      have hlt : n / 10 < 10 ^ f := by
        rw [pow_succ] at h
        omega
      rw [ih (n / 10) _ hlt]
      simp only [List.length_cons, digitsVal, List.foldl]
      rw [foldl_digitsVal]
      rw [digitVal_digitChar _ (Nat.mod_lt n (by norm_num))]
      have key : (n / 10) * 10 ^ (acc.length + 1) +
          ((10 * 0 + (n % 10)) * 10 ^ acc.length +
            List.foldl (fun a c => 10 * a + digitVal c) 0 acc) =
          (10 * (n / 10) + n % 10) * 10 ^ acc.length +
            List.foldl (fun a c => 10 * a + digitVal c) 0 acc := by
        rw [pow_succ]; ring
      simp only [digitsVal]
      rw [key]
      have hrec : 10 * (n / 10) + n % 10 = n := by omega
      rw [hrec]

theorem lt_pow10 (n : Nat) : n < 10 ^ (n + 1) :=
  Nat.lt_of_lt_of_le (Nat.lt_succ_self n)
    (Nat.le_of_lt (@Nat.lt_pow_self 10 (by norm_num) (n + 1)))

/-- `Nat.repr` (the `%d` rendering of a non-negative integer) is injective. -/
theorem natRepr_inj (a b : Nat) (h : Nat.repr a = Nat.repr b) : a = b := by
  unfold Nat.repr Nat.toDigits at h
  have hl : Nat.toDigitsCore 10 (a + 1) a [] = Nat.toDigitsCore 10 (b + 1) b [] := by
    have h2 := congrArg String.data h
    simpa [List.asString] using h2
  have va := toDigitsCore_val (a + 1) a [] (lt_pow10 a)
  have vb := toDigitsCore_val (b + 1) b [] (lt_pow10 b)
  rw [hl] at va
  simp [digitsVal] at va vb
  omega

/-! ### C1: permission-class errors and `isRetryableError` -/

/-- C1 (counterexample): the claim says every error whose text contains a
recognized permission substring is classified non-retryable even when it also
carries a transient-service code; but for an error carrying the transient code
`ThrottlingException` whose text contains `access denied`, `isRetryableError`
answers `true` — API-code classification runs before any substring check. -/
theorem c1_counterexample :
    nonRetryableTexts.any
        (fun p => containsCI (GoError.mk (some "ThrottlingException") "access denied").msg p)
        = true
    ∧ isRetryableError (some ⟨some "ThrottlingException", "access denied"⟩) = true := by
  constructor
  · decide
  · decide

/-- C1 (amended): an error carrying a recognized permission/auth API code is
never retryable, whatever its text; and an error whose API code (if any)
matches neither recognized code list, but whose text contains a recognized
permission substring, is never retryable, whatever transient substrings its
text also contains.  (An error carrying a recognized transient-service code is
classified by that code alone, before any substring check.) -/
theorem c1_theorem (e : GoError) :
    ((∃ c, e.apiCode = some c ∧ c ∈ authCodes) → isRetryableError (some e) = false)
    ∧ ((∀ c, e.apiCode = some c → c ∉ authCodes ∧ c ∉ transientCodes)
        → nonRetryableTexts.any (fun p => containsCI e.msg p) = true
        → isRetryableError (some e) = false) := by
  constructor
  · rintro ⟨c, hc, hmem⟩
    simp [isRetryableError, hc, hmem]
  · intro hcode htext
    match hac : e.apiCode with
    | none =>
      simp [isRetryableError, hac, textClassify, htext]
    | some c =>
      obtain ⟨h1, h2⟩ := hcode c hac
      simp [isRetryableError, hac, h1, h2, textClassify, htext]

/-- C1 witness: both halves of `c1_theorem` applied at concrete errors. -/
theorem c1_theorem_witness :
    isRetryableError (some ⟨some "AccessDenied", "timeout while connecting"⟩) = false
    ∧ isRetryableError (some ⟨none, "permission denied: i/o timeout"⟩) = false := by
  refine ⟨(c1_theorem _).1 ⟨"AccessDenied", rfl, by decide⟩, ?_⟩
  exact (c1_theorem _).2 (fun c h => by cases h) (by decide)
/-! ### C2/C3: the retry executor -/

theorem retryAux_counter_bounds (results : Nat → Option GoError) (m d : Nat) :
    ∀ fuel a,
      a + 1 ≤ (retryAux (fun n => (results n, n + 1)) m d a fuel a).2.1
      ∧ (retryAux (fun n => (results n, n + 1)) m d a fuel a).2.1 ≤ a + fuel + 1 := by
  intro fuel
  induction fuel with
  | zero =>
    intro a
    cases hr : results a with
    | none => simp [retryAux, hr]
    | some e =>
      by_cases hb : isRetryableError (some e) = true
      · simp [retryAux, hr, hb]
      · simp [retryAux, hr, hb]
  | succ f ih =>
    intro a
    cases hr : results a with
    | none => simp [retryAux, hr]
    | some e =>
      by_cases hb : isRetryableError (some e) = true
      · have hih := ih (a + 1)
        simp [retryAux, hr, hb]
        omega
      · simp [retryAux, hr, hb]

theorem retryAux_exhaust (results : Nat → Option GoError) (m d : Nat) :
    ∀ fuel a,
      (∀ i, i ≤ fuel → ∃ e, results (a + i) = some e
        ∧ isRetryableError (some e) = true) →
      ∃ e, results (a + fuel) = some e
        ∧ (retryAux (fun n => (results n, n + 1)) m d a fuel a).1
            = some (retriesWrap m e)
        ∧ (retryAux (fun n => (results n, n + 1)) m d a fuel a).2.1 = a + fuel + 1 := by
  intro fuel
  induction fuel with
  | zero =>
    intro a h
    obtain ⟨e, he, hb⟩ := h 0 (Nat.le_refl 0)
    rw [Nat.add_zero] at he
    refine ⟨e, by simpa using he, ?_, ?_⟩ <;> simp [retryAux, he, hb]
  | succ f ih =>
    intro a h
    obtain ⟨e, he, hb⟩ := h 0 (Nat.zero_le _)
    rw [Nat.add_zero] at he
    have hrest : ∀ i, i ≤ f → ∃ e₂, results (a + 1 + i) = some e₂
        ∧ isRetryableError (some e₂) = true := by
      intro i hi
      have h2 := h (i + 1) (by omega)
      have hx : a + (i + 1) = a + 1 + i := by omega
      rw [hx] at h2
      exact h2
    obtain ⟨e₂, he₂, hout, hcnt⟩ := ih (a + 1) hrest
    refine ⟨e₂, ?_, ?_, ?_⟩
    · have hx : a + 1 + f = a + (f + 1) := by omega
      rw [hx] at he₂
      exact he₂
    · simp [retryAux, he, hb]
      exact hout
    · simp [retryAux, he, hb]
      omega

/-- C2: for every per-attempt result sequence, every `maxRetries` and base
delay, `retryOperation` invokes its closure at least once and at most
`maxRetries + 1` times; it invokes it exactly once when the first attempt
succeeds (returning nil) or fails non-retryably (returning that error
unchanged); and when every one of the `maxRetries + 1` attempts fails
retryably it returns the wrapping error naming the retry count and embedding
the last underlying error, having invoked the closure `maxRetries + 1`
times. -/
theorem c2_theorem (results : Nat → Option GoError) (m d : Nat) :
    (1 ≤ (retryCounted results m d).2.1 ∧ (retryCounted results m d).2.1 ≤ m + 1)
    ∧ (results 0 = none →
        (retryCounted results m d).1 = none ∧ (retryCounted results m d).2.1 = 1)
    ∧ (∀ e, results 0 = some e → isRetryableError (some e) = false →
        (retryCounted results m d).1 = some e ∧ (retryCounted results m d).2.1 = 1)
    ∧ ((∀ i, i ≤ m → ∃ e, results i = some e ∧ isRetryableError (some e) = true) →
        ∃ e, results m = some e
          ∧ (retryCounted results m d).1 = some (retriesWrap m e)
          ∧ (retryCounted results m d).2.1 = m + 1) := by
  refine ⟨?_, ?_, ?_, ?_⟩
  · have h := retryAux_counter_bounds results m d m 0
    unfold retryCounted retryOperation
    omega
  · intro h0
    unfold retryCounted retryOperation
    cases m with
    | zero => simp [retryAux, h0]
    | succ f => simp [retryAux, h0]
  · intro e h0 hnr
    have hnr2 : ¬isRetryableError (some e) = true := by simp [hnr]
    unfold retryCounted retryOperation
    cases m with
    | zero => simp [retryAux, h0, hnr2]
    | succ f => simp [retryAux, h0, hnr2]
  · intro h
    have h2 := retryAux_exhaust results m d m 0 (by simpa using h)
    unfold retryCounted retryOperation
    simpa using h2

/-- C2 witness: with always-retryable failures and `maxRetries = 2` the
closure runs exactly 3 times and the result names 2 retries and embeds the
last error; a non-retryable first failure returns unchanged after one call;
a first-attempt success returns nil after one call. -/
theorem c2_theorem_witness :
    ((retryCounted (fun _ => some ⟨none, "timeout"⟩) 2 5).1
        = some (retriesWrap 2 ⟨none, "timeout"⟩)
      ∧ (retryCounted (fun _ => some ⟨none, "timeout"⟩) 2 5).2.1 = 3)
    ∧ ((retryCounted (fun _ => some ⟨none, "access denied"⟩) 2 5).1
        = some ⟨none, "access denied"⟩
      ∧ (retryCounted (fun _ => some ⟨none, "access denied"⟩) 2 5).2.1 = 1)
    ∧ ((retryCounted (fun _ => none) 2 5).1 = none
      ∧ (retryCounted (fun _ => none) 2 5).2.1 = 1) := by
  refine ⟨?_, ?_, ?_⟩
  · obtain ⟨e, he, h1, h2⟩ :=
      (c2_theorem (fun _ => some ⟨none, "timeout"⟩) 2 5).2.2.2
        (fun i _ => ⟨⟨none, "timeout"⟩, rfl, by decide⟩)
    cases he
    exact ⟨h1, h2⟩
  · exact (c2_theorem (fun _ => some ⟨none, "access denied"⟩) 2 5).2.2.1
      ⟨none, "access denied"⟩ rfl (by decide)
  · exact (c2_theorem (fun _ => none) 2 5).2.1 rfl

theorem retryAux_sleeps_pos (results : Nat → Option GoError) (m d : Nat) :
    ∀ fuel a, 1 ≤ a →
      (retryAux (fun n => (results n, n + 1)) m d a fuel a).2.2
        = (List.range' a ((retryAux (fun n => (results n, n + 1)) m d a fuel a).2.1 - a)).map
            (fun k => d * 2 ^ (k - 1)) := by
  intro fuel
  induction fuel with
  | zero =>
    intro a ha
    have hne : ¬a = 0 := by omega
    cases hr : results a with
    | none => simp [retryAux, hr, hne, List.range']
    | some e =>
      by_cases hb : isRetryableError (some e) = true
      · simp [retryAux, hr, hb, hne, List.range']
      · simp [retryAux, hr, hb, hne, List.range']
  | succ f ih =>
    intro a ha
    have hne : ¬a = 0 := by omega
    cases hr : results a with
    | none => simp [retryAux, hr, hne, List.range']
    | some e =>
      by_cases hb : isRetryableError (some e) = true
      · have hih := ih (a + 1) (by omega)
        have hcnt := retryAux_counter_bounds results m d f (a + 1)
        simp [retryAux, hr, hb, hne, hih]
        have hk : (retryAux (fun n => (results n, n + 1)) m d (a + 1) f (a + 1)).2.1 - a
            = ((retryAux (fun n => (results n, n + 1)) m d (a + 1) f (a + 1)).2.1 - (a + 1)) + 1 := by
          omega
        rw [hk, List.range'_succ]
        simp
      · simp [retryAux, hr, hb, hne, List.range']

theorem retryAux_sleeps_zero (results : Nat → Option GoError) (m d : Nat) :
    ∀ fuel,
      (retryAux (fun n => (results n, n + 1)) m d 0 fuel 0).2.2
        = (List.range' 1 ((retryAux (fun n => (results n, n + 1)) m d 0 fuel 0).2.1 - 1)).map
            (fun k => d * 2 ^ (k - 1)) := by
  intro fuel
  cases fuel with
  | zero =>
    cases hr : results 0 with
    | none => simp [retryAux, hr, List.range']
    | some e =>
      by_cases hb : isRetryableError (some e) = true
      · simp [retryAux, hr, hb, List.range']
      · simp [retryAux, hr, hb, List.range']
  | succ f =>
    cases hr : results 0 with
    | none => simp [retryAux, hr, List.range']
    | some e =>
      by_cases hb : isRetryableError (some e) = true
      · have hih := retryAux_sleeps_pos results m d f 1 (Nat.le_refl 1)
        simp [retryAux, hr, hb, hih]
      · simp [retryAux, hr, hb, List.range']

/-- C3: for every per-attempt result sequence, `retryOperation`'s sleep trace
is exactly one entry per executed attempt `k ≥ 1`, in order, each equal to
`baseDelay * 2 ^ (k - 1)` seconds: no sleep precedes attempt 0, and since
sleeps only precede attempts, none follows the final failed attempt. -/
theorem c3_theorem (results : Nat → Option GoError) (m d : Nat) :
    1 ≤ (retryCounted results m d).2.1
    ∧ (retryCounted results m d).2.2
        = (List.range ((retryCounted results m d).2.1 - 1)).map (fun j => d * 2 ^ j) := by
  constructor
  · have h := retryAux_counter_bounds results m d m 0
    unfold retryCounted retryOperation
    omega
  · have h := retryAux_sleeps_zero results m d m
    unfold retryCounted retryOperation at *
    rw [h, List.range'_eq_map_range]
    rw [List.map_map]
    apply List.map_congr_left
    intro j hj
    simp

/-! ### C4: the `runSSMCommand` polling state machine -/

theorem pollLoop_count_le (fetch : Nat → Option FetchRes) :
    ∀ n i, (pollLoop fetch i n).2.1 ≤ n := by
  intro n
  induction n with
  | zero => intro i; simp [pollLoop]
  | succ k ih =>
    intro i
    cases hf : fetch i with
    | none =>
      have := ih (i + 1)
      simp [pollLoop, hf]
      omega
    | some fr =>
      cases hs : fr.status <;> simp [pollLoop, hf, hs]
      have := ih (i + 1)
      omega

theorem pollLoop_sleeps (fetch : Nat → Option FetchRes) :
    ∀ n i, (pollLoop fetch i n).2.2 = List.replicate (pollLoop fetch i n).2.1 2 := by
  intro n
  induction n with
  | zero => intro i; simp [pollLoop]
  | succ k ih =>
    intro i
    cases hf : fetch i with
    | none =>
      simp [pollLoop, hf, ih (i + 1), List.replicate_succ]
    | some fr =>
      cases hs : fr.status <;>
        simp [pollLoop, hf, hs, ih (i + 1), List.replicate_succ]

theorem pollLoop_timeout (fetch : Nat → Option FetchRes) :
    ∀ n i, (∀ j, j < n → isNonTerminal (fetch (i + j)) = true) →
      pollLoop fetch i n = (Except.error pollTimeoutErr, n, List.replicate n 2) := by
  intro n
  induction n with
  | zero => intro i _; simp [pollLoop]
  | succ k ih =>
    intro i h
    have h0 : isNonTerminal (fetch i) = true := by
      have := h 0 (Nat.zero_lt_succ k)
      simpa using this
    have hrest : ∀ j, j < k → isNonTerminal (fetch (i + 1 + j)) = true := by
      intro j hj
      have h2 := h (j + 1) (by omega)
      have hx : i + (j + 1) = i + 1 + j := by omega
      rw [hx] at h2
      exact h2
    cases hf : fetch i with
    | none =>
      simp [pollLoop, hf, ih (i + 1) hrest, List.replicate_succ]
    | some fr =>
      cases hs : fr.status <;> simp [isNonTerminal, hf, hs] at h0
      simp [pollLoop, hf, hs, ih (i + 1) hrest, List.replicate_succ]

theorem pollLoop_first_terminal (fetch : Nat → Option FetchRes) :
    ∀ n i k fr, k < n → (∀ j, j < k → isNonTerminal (fetch (i + j)) = true) →
      fetch (i + k) = some fr →
      (fr.status = CmdStatus.success →
        pollLoop fetch i n = (Except.ok fr.stdout, k + 1, List.replicate (k + 1) 2))
      ∧ ((fr.status = CmdStatus.failed ∨ fr.status = CmdStatus.cancelled
            ∨ fr.status = CmdStatus.timedOut) →
        pollLoop fetch i n
          = (Except.error (statusFailErr fr.status fr.stderr), k + 1,
             List.replicate (k + 1) 2)) := by
  intro n
  induction n with
  | zero => intro i k fr hk; omega
  | succ m ih =>
    intro i k fr hk hpre hfk
    cases k with
    | zero =>
      rw [Nat.add_zero] at hfk
      constructor
      · intro hs
        simp [pollLoop, hfk, hs]
      · rintro (hs | hs | hs) <;> simp [pollLoop, hfk, hs]
    | succ k₂ =>
      have h0 : isNonTerminal (fetch i) = true := by
        have := hpre 0 (Nat.zero_lt_succ k₂)
        simpa using this
      have hrest : ∀ j, j < k₂ → isNonTerminal (fetch (i + 1 + j)) = true := by
        intro j hj
        have h2 := hpre (j + 1) (by omega)
        have hx : i + (j + 1) = i + 1 + j := by omega
        rw [hx] at h2
        exact h2
      have hfk2 : fetch (i + 1 + k₂) = some fr := by
        have hx : i + (k₂ + 1) = i + 1 + k₂ := by omega
        rw [hx] at hfk
        exact hfk
      have hih := ih (i + 1) k₂ fr (by omega) hrest hfk2
      cases hf : fetch i with
      | none =>
        constructor
        · intro hs
          simp [pollLoop, hf, hih.1 hs, List.replicate_succ]
        · intro hs
          simp [pollLoop, hf, hih.2 hs, List.replicate_succ]
      | some fr₀ =>
        cases hs0 : fr₀.status <;> simp [isNonTerminal, hf, hs0] at h0
        constructor
        · intro hs
          simp [pollLoop, hf, hs0, hih.1 hs, List.replicate_succ]
        · intro hs
          simp [pollLoop, hf, hs0, hih.2 hs, List.replicate_succ]

theorem pollTimeout_ne_statusFail (st : CmdStatus) (se : String) :
    pollTimeoutErr ≠ statusFailErr st se := by
  intro h
  have h2 : pollTimeoutErr.msg = (statusFailErr st se).msg := congrArg GoError.msg h
  simp only [pollTimeoutErr, statusFailErr] at h2
  have h3 := congrArg String.data h2
  cases st <;> simp [statusName, String.data_append] at h3

/-- C4: after a successful send, `runSSMCommand` polls at most 30 times (each
poll a 2-second sleep then a status fetch, fetch errors counted as attempts
and survived); the first Success returns the captured stdout; the first
Failed/Cancelled/TimedOut returns the error embedding that status and the
captured stderr; and 30 polls with no terminal status return the distinct
poll-timeout error, which equals no remote-status-based error. -/
theorem c4_theorem (fetch : Nat → Option FetchRes) :
    ((pollLoop fetch 0 30).2.1 ≤ 30
      ∧ (pollLoop fetch 0 30).2.2 = List.replicate (pollLoop fetch 0 30).2.1 2)
    ∧ ((∀ j, j < 30 → isNonTerminal (fetch j) = true) →
        pollLoop fetch 0 30 = (Except.error pollTimeoutErr, 30, List.replicate 30 2))
    ∧ (∀ k fr, k < 30 → (∀ j, j < k → isNonTerminal (fetch j) = true) →
        fetch k = some fr →
        (fr.status = CmdStatus.success →
          pollLoop fetch 0 30 = (Except.ok fr.stdout, k + 1, List.replicate (k + 1) 2))
        ∧ ((fr.status = CmdStatus.failed ∨ fr.status = CmdStatus.cancelled
              ∨ fr.status = CmdStatus.timedOut) →
          pollLoop fetch 0 30
            = (Except.error (statusFailErr fr.status fr.stderr), k + 1,
               List.replicate (k + 1) 2)))
    ∧ (∀ st se, pollTimeoutErr ≠ statusFailErr st se) := by
  refine ⟨⟨pollLoop_count_le fetch 30 0, pollLoop_sleeps fetch 30 0⟩, ?_, ?_, ?_⟩
  · intro h
    exact pollLoop_timeout fetch 30 0 (by simpa using h)
  · intro k fr hk hpre hfk
    exact pollLoop_first_terminal fetch 30 0 k fr hk (by simpa using hpre)
      (by simpa using hfk)
  · exact pollTimeout_ne_statusFail

/-- C4 witness: a run whose first two polls hit fetch errors and whose third
reports Success returns the captured stdout after 3 polling attempts; a run
whose polls never terminalize returns the poll-timeout error after 30. -/
theorem c4_theorem_witness :
    pollLoop (fun i => if i = 2 then some ⟨CmdStatus.success, "ok", ""⟩ else none) 0 30
      = (Except.ok "ok", 3, List.replicate 3 2)
    ∧ pollLoop (fun _ => none) 0 30
      = (Except.error pollTimeoutErr, 30, List.replicate 30 2) := by
  constructor
  · exact ((c4_theorem _).2.2.1 2 ⟨CmdStatus.success, "ok", ""⟩ (by decide)
      (by decide) (by decide)).1 rfl
  · exact (c4_theorem _).2.1 (fun j _ => rfl)

/-! ### C7: directory upload key structure -/

theorem joinSlash_cons (a : String) (l : List String) (h : l ≠ []) :
    joinSlash (a :: l) = a ++ "/" ++ joinSlash l := by
  cases l with
  | nil => exact absurd rfl h
  | cons b t => rfl

theorem relFilesNode_ne : ∀ (t : FNode), ∀ comps ∈ relFilesNode t, comps ≠ []
  | .file name => by simp [relFilesNode]
  | .dir name entries => by
    intro comps hc
    simp only [relFilesNode, List.mem_map] at hc
    obtain ⟨p, _, hp⟩ := hc
    rw [← hp]
    simp
  | .errEntry _ _ => by simp [relFilesNode]

theorem relFilesList_ne : ∀ (ts : List FNode), ∀ comps ∈ relFilesList ts, comps ≠ []
  | [] => by simp [relFilesList]
  | n :: rest => by
    intro comps hc
    simp only [relFilesList, List.mem_append] at hc
    rcases hc with h | h
    · exact relFilesNode_ne n comps h
    · exact relFilesList_ne rest comps h

/-! ### Path algebra: `splitSlash`, `goClean`, `goJoin`, `goDir`, `goRel` -/

theorem mk_data (p : String) : String.mk p.data = p := rfl

theorem splitSlash_ne_nil : ∀ l : List Char, splitSlash l ≠ []
  | [] => by simp [splitSlash]
  | c :: rest => by
    by_cases h : c = '/'
    · simp [splitSlash, h]
    · simp only [splitSlash, if_neg h]
      cases hs : splitSlash rest <;> simp

theorem splitSlash_append : ∀ a b : List Char,
    splitSlash (a ++ '/' :: b) = splitSlash a ++ splitSlash b
  | [], b => by simp [splitSlash]
  | c :: a, b => by
    by_cases h : c = '/'
    · simp [splitSlash, h, splitSlash_append a b]
    · show splitSlash (c :: (a ++ '/' :: b)) = splitSlash (c :: a) ++ splitSlash b
      simp only [splitSlash, if_neg h]
      rw [splitSlash_append a b]
      cases hs : splitSlash a with
      | nil => exact absurd hs (splitSlash_ne_nil a)
      | cons g gs => simp [hs]

theorem splitSlash_no_sep : ∀ c : List Char, '/' ∉ c → splitSlash c = [c]
  | [], _ => rfl
  | x :: c, h => by
    have hx : ¬x = '/' := by
      intro hx
      exact h (by simp [hx])
    have hc : '/' ∉ c := fun hm => h (List.mem_cons_of_mem _ hm)
    simp [splitSlash, hx, splitSlash_no_sep c hc]

theorem joinSlash_append_last : ∀ (cs : List String) (nm : String), cs ≠ [] →
    joinSlash (cs ++ [nm]) = joinSlash cs ++ "/" ++ nm
  | [], _, h => absurd rfl h
  | [a], nm, _ => rfl
  | a :: b :: rest, nm, _ => by
    have ih := joinSlash_append_last (b :: rest) nm (by simp)
    simp only [List.cons_append] at ih ⊢
    simp only [joinSlash]
    rw [ih]
    simp [String.append_assoc]

theorem joinComps_map_data : ∀ cs : List String, cs ≠ [] →
    joinComps (cs.map String.data) = (joinSlash cs).data
  | [], h => absurd rfl h
  | [a], _ => rfl
  | a :: b :: rest, _ => by
    have ih := joinComps_map_data (b :: rest) (by simp)
    simp only [List.map_cons, joinComps, joinSlash] at *
    rw [ih]
    simp [String.data_append]

theorem niceName_spec (c : String) (h : niceName c = true) :
    c.data ≠ [] ∧ c.data ≠ ['.'] ∧ c.data ≠ ['.', '.'] ∧ '/' ∉ c.data := by
  simp only [niceName, Bool.and_eq_true, Bool.not_eq_true'] at h
  obtain ⟨⟨⟨h1, h2⟩, h3⟩, h4⟩ := h
  refine ⟨by simpa using h1, ?_, ?_, by simpa using h4⟩
  · intro hd
    have : c = "." := String.ext hd
    simp [this] at h2
  · intro hd
    have : c = ".." := String.ext hd
    simp [this] at h3

theorem renderPath_data (rooted : Bool) (cs : List String) :
    (renderPath rooted cs).data = (if rooted then ['/'] else []) ++ (joinSlash cs).data := by
  unfold renderPath
  cases rooted <;> simp [String.data_append]

theorem splitSlash_joinSlash : ∀ cs : List String, cs ≠ [] →
    (∀ c ∈ cs, '/' ∉ c.data) →
    splitSlash (joinSlash cs).data = cs.map String.data
  | [], h, _ => absurd rfl h
  | [a], _, hns => by
    simp only [joinSlash, List.map_cons, List.map_nil]
    exact splitSlash_no_sep a.data (hns a (by simp))
  | a :: b :: r, _, hns => by
    have ih := splitSlash_joinSlash (b :: r) (by simp) (fun c hc => hns c (by simp [hc]))
    simp only [joinSlash, List.map_cons]
    have hdata : (a ++ "/" ++ joinSlash (b :: r)).data
        = a.data ++ '/' :: (joinSlash (b :: r)).data := by
      simp [String.data_append]
    rw [hdata, splitSlash_append, splitSlash_no_sep a.data (hns a (by simp)), ih]
    simp

theorem splitSlash_renderPath (rooted : Bool) (cs : List String) (hne : cs ≠ [])
    (hns : ∀ c ∈ cs, '/' ∉ c.data) :
    splitSlash (renderPath rooted cs).data
      = (if rooted then [[]] else []) ++ cs.map String.data := by
  have hj := splitSlash_joinSlash cs hne hns
  rw [renderPath_data]
  cases rooted
  · simpa using hj
  · show splitSlash ('/' :: (joinSlash cs).data) = [[]] ++ List.map String.data cs
    simp [splitSlash, hj]

theorem cleanComps_no_dots (rooted : Bool) : ∀ (cs : List (List Char)),
    (∀ c ∈ cs, c ≠ ['.'] ∧ c ≠ ['.', '.']) → ∀ stack,
    cleanComps rooted stack cs = stack.reverse ++ cs.filter (fun c => !c.isEmpty)
  | [], _, stack => by simp [cleanComps]
  | comp :: rest, h, stack => by
    have hrest := fun c hc => h c (List.mem_cons_of_mem _ hc)
    obtain ⟨h1, h2⟩ := h comp (by simp)
    by_cases he : comp = []
    · subst he
      simp only [cleanComps, if_pos (Or.inl rfl)]
      rw [cleanComps_no_dots rooted rest hrest stack]
      simp
    · have hcond : ¬(comp = [] ∨ comp = ['.']) := by
        rintro (hc | hc) <;> [exact he hc; exact h1 hc]
      simp only [cleanComps, if_neg hcond, if_neg h2]
      rw [cleanComps_no_dots rooted rest hrest (comp :: stack)]
      simp [he]

theorem cleanComps_skip_empty (rooted : Bool) (stack : List (List Char))
    (rest : List (List Char)) :
    cleanComps rooted stack ([] :: rest) = cleanComps rooted stack rest := by
  simp [cleanComps]

theorem map_mk_map_data (cs : List String) :
    (cs.map String.data).map String.mk = cs := by
  rw [List.map_map]
  have h : ∀ c ∈ cs, (String.mk ∘ String.data) c = c := fun c _ => rfl
  rw [List.map_congr_left h]
  exact List.map_id cs

theorem joinSlash_data_cons (a : String) (t : List String) :
    ∃ rest, (joinSlash (a :: t)).data = a.data ++ rest := by
  cases t with
  | nil => exact ⟨[], by simp [joinSlash]⟩
  | cons b r =>
    refine ⟨'/' :: (joinSlash (b :: r)).data, ?_⟩
    simp [joinSlash, String.data_append]

theorem renderPath_facts (rooted : Bool) (cs : List String) (hne : cs ≠ [])
    (hnice : ∀ c ∈ cs, niceName c = true) :
    (renderPath rooted cs).data ≠ [] ∧ isRooted (renderPath rooted cs) = rooted := by
  obtain ⟨a, t, rfl⟩ : ∃ a t, cs = a :: t := by
    cases cs with
    | nil => exact absurd rfl hne
    | cons a t => exact ⟨a, t, rfl⟩
  obtain ⟨rest, hjoin⟩ := joinSlash_data_cons a t
  obtain ⟨hadne, -, -, hasl⟩ := niceName_spec a (hnice a (by simp))
  obtain ⟨c₀, ad, hadata⟩ : ∃ c₀ ad, a.data = c₀ :: ad := by
    cases hd : a.data with
    | nil => exact absurd hd hadne
    | cons c₀ ad => exact ⟨c₀, ad, rfl⟩
  have hc₀ : ¬c₀ = '/' := by
    intro h
    exact hasl (by rw [hadata, h]; simp)
  cases rooted with
  | false =>
    have hd : (renderPath false (a :: t)).data = c₀ :: (ad ++ rest) := by
      rw [renderPath_data]
      simp [hjoin, hadata]
    constructor
    · rw [hd]; simp
    · simp [isRooted, hd, hc₀]
  | true =>
    have hd : (renderPath true (a :: t)).data = '/' :: (a.data ++ rest) := by
      rw [renderPath_data]
      simp [hjoin]
    constructor
    · rw [hd]; simp
    · simp [isRooted, hd]

theorem goClean_of_split (p : String) (rooted : Bool) (cs : List String)
    (hcs : cs ≠ []) (hnice : ∀ c ∈ cs, niceName c = true)
    (hd : ¬p.data = []) (hr : isRooted p = rooted)
    (hsplit : splitSlash p.data = (if rooted then [[]] else []) ++ cs.map String.data
      ∨ splitSlash p.data
          = ((if rooted then [[]] else []) ++ cs.map String.data) ++ [[]]) :
    goClean p = renderPath rooted cs := by
  have hdots : ∀ (L : List (List Char)), (∀ c ∈ L, c = [] ∨ ∃ s ∈ cs, c = s.data) →
      ∀ c ∈ L, c ≠ ['.'] ∧ c ≠ ['.', '.'] := by
    intro L hL c hc
    rcases hL c hc with h | ⟨s, hs, rfl⟩
    · subst h
      exact ⟨by simp, by simp⟩
    · obtain ⟨-, h1, h2, -⟩ := niceName_spec s (hnice s hs)
      exact ⟨h1, h2⟩
  have hmem : ∀ c ∈ (if rooted then [[]] else ([] : List (List Char)))
      ++ cs.map String.data, c = [] ∨ ∃ s ∈ cs, c = s.data := by
    intro c hc
    rcases List.mem_append.mp hc with h | h
    · cases rooted <;> simp_all
    · right
      obtain ⟨s, hs, rfl⟩ := List.mem_map.mp h
      exact ⟨s, hs, rfl⟩
  have hmem₂ : ∀ c ∈ ((if rooted then [[]] else ([] : List (List Char)))
      ++ cs.map String.data) ++ [[]], c = [] ∨ ∃ s ∈ cs, c = s.data := by
    intro c hc
    rcases List.mem_append.mp hc with h | h
    · exact hmem c h
    · left; simpa using h
  have hfilter : ((if rooted then [[]] else ([] : List (List Char)))
      ++ cs.map String.data).filter (fun c => !c.isEmpty) = cs.map String.data := by
    rw [List.filter_append]
    have h1 : ((if rooted then [[]] else ([] : List (List Char)))).filter
        (fun c => !c.isEmpty) = [] := by
      cases rooted <;> simp
    have h2 : (cs.map String.data).filter (fun c => !c.isEmpty) = cs.map String.data := by
      apply List.filter_eq_self.mpr
      intro c hc
      obtain ⟨s, hs, rfl⟩ := List.mem_map.mp hc
      obtain ⟨h, -, -, -⟩ := niceName_spec s (hnice s hs)
      simpa using h
    rw [h1, h2]
    simp
  have hstack : cleanComps rooted [] (splitSlash p.data) = cs.map String.data := by
    rcases hsplit with h | h
    · rw [h, cleanComps_no_dots rooted _ (hdots _ hmem) []]
      simpa using hfilter
    · rw [h, cleanComps_no_dots rooted _ (hdots _ hmem₂) []]
      rw [List.filter_append, hfilter]
      simp
  have hmapne : cs.map String.data ≠ [] := by
    cases cs with
    | nil => exact absurd rfl hcs
    | cons a t => simp
  unfold goClean
  rw [if_neg hd, hr, hstack, if_neg hmapne, map_mk_map_data]

theorem goClean_renderPath (rooted : Bool) (cs : List String) (hne : cs ≠ [])
    (hnice : ∀ c ∈ cs, niceName c = true) :
    goClean (renderPath rooted cs) = renderPath rooted cs := by
  obtain ⟨h1, h2⟩ := renderPath_facts rooted cs hne hnice
  exact goClean_of_split _ rooted cs hne hnice h1 h2
    (Or.inl (splitSlash_renderPath rooted cs hne
      (fun c hc => (niceName_spec c (hnice c hc)).2.2.2)))

theorem goJoin_renderPath (rooted : Bool) (cs : List String) (nm : String)
    (hne : cs ≠ []) (hnice : ∀ c ∈ cs, niceName c = true) (hnm : niceName nm = true) :
    goJoin (renderPath rooted cs) nm = renderPath rooted (cs ++ [nm]) := by
  have hdne := (renderPath_facts rooted cs hne hnice).1
  have hNE : ¬renderPath rooted cs = "" := by
    intro h
    rw [h] at hdne
    exact hdne rfl
  have hnice₂ : ∀ c ∈ cs ++ [nm], niceName c = true := by
    intro c hc
    rcases List.mem_append.mp hc with h | h
    · exact hnice c h
    · simp at h
      subst h
      exact hnm
  unfold goJoin
  rw [if_neg hNE]
  have hx : renderPath rooted cs ++ "/" ++ nm = renderPath rooted (cs ++ [nm]) := by
    unfold renderPath
    rw [joinSlash_append_last cs nm hne]
    simp [String.append_assoc]
  rw [hx]
  exact goClean_renderPath rooted (cs ++ [nm]) (by simp) hnice₂


theorem dropWhile_all_append (p : Char → Bool) :
    ∀ (l₁ l₂ : List Char), (∀ x ∈ l₁, p x = true) →
      List.dropWhile p (l₁ ++ l₂) = List.dropWhile p l₂
  | [], _, _ => rfl
  | x :: l₁, l₂, h => by
    rw [List.cons_append, List.dropWhile_cons_of_pos (h x (by simp))]
    exact dropWhile_all_append p l₁ l₂ (fun y hy => h y (by simp [hy]))

theorem goClean_dot : goClean "." = "." := rfl

theorem goClean_slash : goClean "/" = "/" := rfl

theorem bdata_reverse_all (b : String) (hb : niceName b = true) :
    ∀ x ∈ b.data.reverse, (x != '/') = true := by
  obtain ⟨-, -, -, hbsl⟩ := niceName_spec b hb
  intro x hx
  have hxm : x ∈ b.data := List.mem_reverse.mp hx
  simp only [bne_iff_ne, ne_eq]
  intro he
  subst he
  exact hbsl hxm

theorem goDir_renderPath (rooted : Bool) (init : List String) (b : String)
    (hni : ∀ c ∈ init, niceName c = true) (hb : niceName b = true) :
    goDir (renderPath rooted (init ++ [b]))
      = if init = [] then (if rooted then "/" else ".") else renderPath rooted init := by
  obtain ⟨hbne, -, -, hbsl⟩ := niceName_spec b hb
  have hbAll := bdata_reverse_all b hb
  cases init with
  | nil =>
    rw [if_pos rfl]
    cases rooted with
    | false =>
      have hd : (renderPath false [b]).data = b.data := by
        simp [renderPath, joinSlash, String.data_append]
      unfold goDir
      simp only [List.nil_append]
      rw [hd]
      have hdrop : List.dropWhile (fun c => c != '/') b.data.reverse = [] := by
        have : b.data.reverse ++ [] = b.data.reverse := by simp
        rw [← this, dropWhile_all_append _ _ _ hbAll]
        rfl
      rw [hdrop]
      rfl
    | true =>
      have hd : (renderPath true [b]).data = '/' :: b.data := by
        simp [renderPath, joinSlash, String.data_append]
      unfold goDir
      simp only [List.nil_append]
      rw [hd]
      have hrev : ('/' :: b.data).reverse = b.data.reverse ++ ['/'] := by simp
      rw [hrev, dropWhile_all_append _ _ _ hbAll,
        List.dropWhile_cons_of_neg (by simp)]
      rfl
  | cons i it =>
    rw [if_neg (by simp)]
    have hIne : (i :: it : List String) ≠ [] := by simp
    have hd : (renderPath rooted ((i :: it) ++ [b])).data
        = (renderPath rooted (i :: it)).data ++ '/' :: b.data := by
      unfold renderPath
      rw [joinSlash_append_last (i :: it) b hIne]
      cases rooted <;> simp [String.data_append]
    unfold goDir
    rw [hd]
    have hrev : ((renderPath rooted (i :: it)).data ++ '/' :: b.data).reverse
        = b.data.reverse ++ '/' :: (renderPath rooted (i :: it)).data.reverse := by
      simp
    rw [hrev, dropWhile_all_append _ _ _ hbAll,
      List.dropWhile_cons_of_neg (by simp)]
    have hrev₂ : ('/' :: (renderPath rooted (i :: it)).data.reverse).reverse
        = (renderPath rooted (i :: it)).data ++ ['/'] := by
      simp
    rw [hrev₂]
    obtain ⟨hXne, hXroot⟩ := renderPath_facts rooted (i :: it) hIne hni
    obtain ⟨x₀, X, hX⟩ : ∃ x₀ X, (renderPath rooted (i :: it)).data = x₀ :: X := by
      cases hc : (renderPath rooted (i :: it)).data with
      | nil => exact absurd hc hXne
      | cons x₀ X => exact ⟨x₀, X, rfl⟩
    apply goClean_of_split _ rooted (i :: it) hIne hni
    · rw [hX]
      simp
    · rw [hX]
      simp only [isRooted, List.cons_append]
      have hroot₂ : isRooted (renderPath rooted (i :: it)) = (x₀ == '/') := by
        unfold isRooted
        rw [hX]
      rw [hroot₂] at hXroot
      exact hXroot
    · right
      show splitSlash ((renderPath rooted (i :: it)).data ++ '/' :: []) = _
      rw [splitSlash_append]
      rw [splitSlash_renderPath rooted (i :: it) hIne
        (fun c hc => (niceName_spec c (hni c hc)).2.2.2)]
      rfl

theorem filepathBase_append_last (P : List Char) (b : String)
    (hb : niceName b = true) (hP : P = [] ∨ P.reverse.head? = some '/') :
    filepathBase (String.mk (P ++ b.data)) = b := by
  obtain ⟨hbne, -, -, hbsl⟩ := niceName_spec b hb
  have hbAllne : ∀ x ∈ b.data.reverse, (x != '/') = true := bdata_reverse_all b hb
  have hdne : ¬(P ++ b.data = []) := by
    intro h
    exact hbne (by simpa using (List.append_eq_nil.mp h).2)
  obtain ⟨d₀, D, hbr⟩ : ∃ d₀ D, b.data.reverse = d₀ :: D := by
    cases hc : b.data.reverse with
    | nil => exact absurd (by simpa using congrArg List.reverse hc) hbne
    | cons d₀ D => exact ⟨d₀, D, rfl⟩
  have hd₀ : ¬(d₀ == '/') = true := by
    simp only [beq_iff_eq]
    intro he
    subst he
    exact hbsl (List.mem_reverse.mp (by rw [hbr]; simp))
  unfold filepathBase
  rw [if_neg (by simpa using hdne)]
  have hrev : (String.mk (P ++ b.data)).data.reverse = b.data.reverse ++ P.reverse := by
    simp
  rw [hrev]
  have hdropw : List.dropWhile (fun c => c == '/') (b.data.reverse ++ P.reverse)
      = b.data.reverse ++ P.reverse := by
    rw [hbr, List.cons_append, List.dropWhile_cons_of_neg (by simpa using hd₀)]
  rw [hdropw]
  simp only [List.reverse_reverse]
  have htake : List.takeWhile (fun c => c != '/') (b.data.reverse ++ P.reverse)
      = b.data.reverse := by
    rw [List.takeWhile_append_of_pos hbAllne]
    rcases hP with h | h
    · simp [h]
    · cases hc : P.reverse with
      | nil => simp
      | cons p₀ Pr =>
        rw [hc] at h
        simp only [List.head?] at h
        have hp₀ : p₀ = '/' := by injection h
        rw [List.takeWhile_cons_of_neg (by simp [hp₀])]
        simp
  rw [htake]
  rw [if_neg (by simpa using hbne)]
  simp only [List.reverse_reverse, mk_data]

theorem filepathBase_renderPath (rooted : Bool) (init : List String) (b : String)
    (hni : ∀ c ∈ init, niceName c = true) (hb : niceName b = true) :
    filepathBase (renderPath rooted (init ++ [b])) = b := by
  cases init with
  | nil =>
    cases rooted with
    | false =>
      have h : renderPath false [b] = String.mk ([] ++ b.data) := by
        apply String.ext
        simp [renderPath, joinSlash, String.data_append]
      simp only [List.nil_append]
      rw [h]
      exact filepathBase_append_last [] b hb (Or.inl rfl)
    | true =>
      have h : renderPath true [b] = String.mk (['/'] ++ b.data) := by
        apply String.ext
        simp [renderPath, joinSlash, String.data_append]
      simp only [List.nil_append]
      rw [h]
      exact filepathBase_append_last ['/'] b hb (Or.inr rfl)
  | cons i it =>
    have hIne : (i :: it : List String) ≠ [] := by simp
    have h : renderPath rooted ((i :: it) ++ [b])
        = String.mk (((renderPath rooted (i :: it)).data ++ ['/']) ++ b.data) := by
      apply String.ext
      simp only []
      unfold renderPath
      rw [joinSlash_append_last (i :: it) b hIne]
      cases rooted <;> simp [String.data_append]
    rw [h]
    exact filepathBase_append_last _ b hb (Or.inr (by simp))

theorem dropCommon_self_prefix : ∀ (common r : List (List Char)),
    dropCommon common (common ++ r) = ([], r)
  | [], r => by simp [dropCommon]
  | c :: cs, r => by
    simp [dropCommon, dropCommon_self_prefix cs r]


theorem goRel_of_splits (basepath targpath base₂ : String) (b : String)
    (relcs : List String)
    (hcb : goClean basepath = basepath) (hct : goClean targpath = targpath)
    (hne : ¬(targpath = basepath))
    (hb₂ : (if basepath = "." then "" else basepath) = base₂)
    (hroots : (isRooted base₂ != isRooted targpath) = false)
    (hdc : dropCommon (splitSlash base₂.data) (splitSlash targpath.data)
        = ([], b.data :: relcs.map String.data)
      ∨ dropCommon (splitSlash base₂.data) (splitSlash targpath.data)
        = ([[]], b.data :: relcs.map String.data))
    (hbne : b.data ≠ []) :
    goRel basepath targpath = Except.ok (joinSlash (b :: relcs)) := by
  have hfin : String.mk (joinComps (b.data :: relcs.map String.data))
      = joinSlash (b :: relcs) := by
    have hj := joinComps_map_data (b :: relcs) (by simp)
    rw [List.map_cons] at hj
    rw [hj]
  unfold goRel
  simp only []
  rw [hcb, hct, if_neg hne, hb₂, hroots]
  rcases hdc with h | h <;> rw [h] <;> simp [hbne, hfin]

theorem goRel_key (rooted : Bool) (init : List String) (b : String) (relcs : List String)
    (hni : ∀ c ∈ init, niceName c = true) (hb : niceName b = true)
    (hrel : relcs ≠ []) (hrc : ∀ c ∈ relcs, niceName c = true) :
    goRel (if init = [] then (if rooted then "/" else ".") else renderPath rooted init)
        (renderPath rooted (init ++ b :: relcs))
      = Except.ok (joinSlash (b :: relcs)) := by
  obtain ⟨hbne, hbdot, hbddot, hbsl⟩ := niceName_spec b hb
  have hTnice : ∀ c ∈ init ++ b :: relcs, niceName c = true := by
    intro c hc
    rcases List.mem_append.mp hc with h | h
    · exact hni c h
    · rcases List.mem_cons.mp h with h | h
      · exact h ▸ hb
      · exact hrc c h
  have hTne : (init ++ b :: relcs : List String) ≠ [] := by simp
  have hct : goClean (renderPath rooted (init ++ b :: relcs))
      = renderPath rooted (init ++ b :: relcs) :=
    goClean_renderPath rooted _ hTne hTnice
  have hsplitT : splitSlash (renderPath rooted (init ++ b :: relcs)).data
      = (if rooted then [[]] else []) ++ (init ++ b :: relcs).map String.data :=
    splitSlash_renderPath rooted _ hTne
      (fun c hc => (niceName_spec c (hTnice c hc)).2.2.2)
  have hTroot : isRooted (renderPath rooted (init ++ b :: relcs)) = rooted :=
    (renderPath_facts rooted _ hTne hTnice).2
  cases init with
  | nil =>
    rw [if_pos rfl]
    simp only [List.nil_append] at hct hsplitT hTroot ⊢
    cases rooted with
    | false =>
      show goRel "." (renderPath false (b :: relcs)) = Except.ok (joinSlash (b :: relcs))
      have hsplit : splitSlash (renderPath false (b :: relcs)).data
          = (b :: relcs).map String.data := by
        simpa using hsplitT
      have hroot₂ : isRooted (renderPath false (b :: relcs)) = false := by
        simpa using hTroot
      have hne : ¬(renderPath false (b :: relcs) = ".") := by
        intro he
        have h2 : List.map String.data (b :: relcs) = [['.']] := by
          rw [← hsplit, he]
          decide
        rw [List.map_cons] at h2
        injection h2 with h4 h5
        exact hbdot h4
      have hroots : (isRooted "" != isRooted (renderPath false (b :: relcs))) = false := by
        rw [hroot₂]
        decide
      have hdc : dropCommon (splitSlash (String.data ""))
          (splitSlash (renderPath false (b :: relcs)).data)
          = ([[]], b.data :: relcs.map String.data) := by
        rw [hsplit]
        have h0 : splitSlash (String.data "") = [[]] := rfl
        rw [h0, List.map_cons]
        have hne₀ : ¬([] : List Char) = b.data := fun h => hbne h.symm
        simp [dropCommon, hne₀]
      exact goRel_of_splits "." _ "" b relcs rfl hct hne (if_pos rfl) hroots
        (Or.inr hdc) hbne
    | true =>
      show goRel "/" (renderPath true (b :: relcs)) = Except.ok (joinSlash (b :: relcs))
      have hsplit : splitSlash (renderPath true (b :: relcs)).data
          = ([] : List Char) :: (b :: relcs).map String.data := by
        simpa using hsplitT
      have hroot₂ : isRooted (renderPath true (b :: relcs)) = true := by
        simpa using hTroot
      have hne : ¬(renderPath true (b :: relcs) = "/") := by
        intro he
        have h2 : ([] : List Char) :: List.map String.data (b :: relcs) = [[], []] := by
          rw [← hsplit, he]
          decide
        injection h2 with h4 h5
        rw [List.map_cons] at h5
        injection h5 with h6 h7
        exact hbne h6
      have hroots : (isRooted "/" != isRooted (renderPath true (b :: relcs))) = false := by
        rw [hroot₂]
        decide
      have hdc : dropCommon (splitSlash (String.data "/"))
          (splitSlash (renderPath true (b :: relcs)).data)
          = ([[]], b.data :: relcs.map String.data) := by
        rw [hsplit]
        have h0 : splitSlash (String.data "/") = [[], []] := rfl
        rw [h0, List.map_cons]
        have hne₀ : ¬([] : List Char) = b.data := fun h => hbne h.symm
        simp [dropCommon, hne₀]
      exact goRel_of_splits "/" _ "/" b relcs rfl hct hne (if_neg (by decide)) hroots
        (Or.inr hdc) hbne
  | cons i it =>
    rw [if_neg (by simp)]
    have hIne : (i :: it : List String) ≠ [] := by simp
    have hcb := goClean_renderPath rooted (i :: it) hIne hni
    have hsplitB : splitSlash (renderPath rooted (i :: it)).data
        = (if rooted then [[]] else []) ++ (i :: it).map String.data :=
      splitSlash_renderPath rooted _ hIne
        (fun c hc => (niceName_spec c (hni c hc)).2.2.2)
    have hBroot : isRooted (renderPath rooted (i :: it)) = rooted :=
      (renderPath_facts rooted _ hIne hni).2
    have hne : ¬(renderPath rooted ((i :: it) ++ b :: relcs)
        = renderPath rooted (i :: it)) := by
      intro he
      have h2 : ((if rooted then [[]] else ([] : List (List Char)))
            ++ ((i :: it) ++ b :: relcs).map String.data).length
          = ((if rooted then [[]] else ([] : List (List Char)))
            ++ (i :: it).map String.data).length := by
        rw [← hsplitT, ← hsplitB, he]
      cases rooted <;> simp [List.length_append, List.length_map] at h2 <;> omega
    obtain ⟨hine, hidot, -, -⟩ := niceName_spec i (hni i (by simp))
    have hbdot₂ : ¬(renderPath rooted (i :: it) = ".") := by
      intro he
      have h2 : (if rooted then [[]] else ([] : List (List Char)))
          ++ (i :: it).map String.data = [['.']] := by
        rw [← hsplitB, he]
        decide
      cases rooted with
      | false =>
        simp at h2
        exact hidot h2.1
      | true => simp at h2
    have hroots : (isRooted (renderPath rooted (i :: it))
        != isRooted (renderPath rooted ((i :: it) ++ b :: relcs))) = false := by
      rw [hBroot, hTroot]
      simp
    have hdc : dropCommon (splitSlash (renderPath rooted (i :: it)).data)
        (splitSlash (renderPath rooted ((i :: it) ++ b :: relcs)).data)
        = ([], b.data :: relcs.map String.data) := by
      rw [hsplitT, hsplitB]
      have hmap : ((i :: it) ++ b :: relcs).map String.data
          = (i :: it).map String.data ++ (b :: relcs).map String.data := by
        simp
      rw [hmap, ← List.append_assoc, List.map_cons]
      exact dropCommon_self_prefix _ _
    exact goRel_of_splits _ _ _ b relcs hcb hct hne (if_neg hbdot₂) hroots
      (Or.inl hdc) hbne


mutual

theorem walkNode_keys (put : String → Option GoError) (rooted : Bool)
    (initc : List String) (lastc : String)
    (hput : ∀ k, put k = none)
    (hni : ∀ c ∈ initc, niceName c = true) (hlast : niceName lastc = true) :
    ∀ (n : FNode) (sub : List String), niceTreeNode n = true →
      (∀ c ∈ sub, niceName c = true) →
      walkNode put (renderPath rooted (initc ++ [lastc]))
          (renderPath rooted ((initc ++ [lastc]) ++ sub)) n
        = match firstErrNode n with
          | some e => Except.error e
          | none => Except.ok ((relFilesNode n).map
              (fun p => joinSlash (lastc :: (sub ++ p))))
  | .file name, sub, hn, hsub => by
    have hname : niceName name = true := by
      simpa [niceTreeNode] using hn
    have hcs : ((initc ++ [lastc]) ++ sub : List String) ≠ [] := by simp
    have hnice₂ : ∀ c ∈ (initc ++ [lastc]) ++ sub, niceName c = true := by
      intro c hc
      rcases List.mem_append.mp hc with h | h
      · rcases List.mem_append.mp h with h | h
        · exact hni c h
        · simp only [List.mem_singleton] at h
          exact h ▸ hlast
      · exact hsub c h
    have hJoin := goJoin_renderPath rooted ((initc ++ [lastc]) ++ sub) name hcs hnice₂ hname
    have hassoc : ((((initc ++ [lastc]) ++ sub) ++ [name]) : List String)
        = initc ++ lastc :: (sub ++ [name]) := by simp
    have hreln : ∀ c ∈ sub ++ [name], niceName c = true := by
      intro c hc
      rcases List.mem_append.mp hc with h | h
      · exact hsub c h
      · simp only [List.mem_singleton] at h
        exact h ▸ hname
    have hrel := goRel_key rooted initc lastc (sub ++ [name]) hni hlast (by simp) hreln
    have hDir := goDir_renderPath rooted initc lastc hni hlast
    simp only [walkNode, firstErrNode, relFilesNode]
    rw [hJoin, hassoc, hDir, hrel]
    simp [hput, goToSlash]
  | .dir name entries, sub, hn, hsub => by
    obtain ⟨hname, hentries⟩ : niceName name = true ∧ niceTreeList entries = true := by
      simpa [niceTreeNode, Bool.and_eq_true] using hn
    have hcs : ((initc ++ [lastc]) ++ sub : List String) ≠ [] := by simp
    have hnice₂ : ∀ c ∈ (initc ++ [lastc]) ++ sub, niceName c = true := by
      intro c hc
      rcases List.mem_append.mp hc with h | h
      · rcases List.mem_append.mp h with h | h
        · exact hni c h
        · simp only [List.mem_singleton] at h
          exact h ▸ hlast
      · exact hsub c h
    have hJoin := goJoin_renderPath rooted ((initc ++ [lastc]) ++ sub) name hcs hnice₂ hname
    have hassoc : ((((initc ++ [lastc]) ++ sub) ++ [name]) : List String)
        = (initc ++ [lastc]) ++ (sub ++ [name]) := by simp
    have hsub₂ : ∀ c ∈ sub ++ [name], niceName c = true := by
      intro c hc
      rcases List.mem_append.mp hc with h | h
      · exact hsub c h
      · simp only [List.mem_singleton] at h
        exact h ▸ hname
    have hIH := walkList_keys put rooted initc lastc hput hni hlast entries
      (sub ++ [name]) hentries hsub₂
    simp only [walkNode, firstErrNode, relFilesNode]
    rw [hJoin, hassoc, hIH]
    cases hfe : firstErrList entries with
    | some e => simp
    | none =>
      simp only [List.map_map]
      congr 1
      apply List.map_congr_left
      intro p hp
      simp [Function.comp]
  | .errEntry name e, sub, _, _ => by
    simp [walkNode, firstErrNode]

theorem walkList_keys (put : String → Option GoError) (rooted : Bool)
    (initc : List String) (lastc : String)
    (hput : ∀ k, put k = none)
    (hni : ∀ c ∈ initc, niceName c = true) (hlast : niceName lastc = true) :
    ∀ (ts : List FNode) (sub : List String), niceTreeList ts = true →
      (∀ c ∈ sub, niceName c = true) →
      walkList put (renderPath rooted (initc ++ [lastc]))
          (renderPath rooted ((initc ++ [lastc]) ++ sub)) ts
        = match firstErrList ts with
          | some e => Except.error e
          | none => Except.ok ((relFilesList ts).map
              (fun p => joinSlash (lastc :: (sub ++ p))))
  | [], sub, _, _ => by
    simp [walkList, firstErrList, relFilesList]
  | n :: rest, sub, h, hsub => by
    obtain ⟨hn, hrest⟩ : niceTreeNode n = true ∧ niceTreeList rest = true := by
      simpa [niceTreeList, Bool.and_eq_true] using h
    have h1 := walkNode_keys put rooted initc lastc hput hni hlast n sub hn hsub
    have h2 := walkList_keys put rooted initc lastc hput hni hlast rest sub hrest hsub
    simp only [walkList, firstErrList, relFilesList]
    rw [h1, h2]
    cases hfe : firstErrNode n with
    | some e => simp
    | none =>
      cases hfr : firstErrList rest with
      | some e => simp
      | none => simp [List.map_append]

end


/-- C7 counterexample: the trailing-slash root "data/" (reachable, since the
CLI passes the raw source string through) gives `filepath.Dir("data/") =
"data"`, so the key of file `a` is `"a"` — the root directory\'s own name is
not a prefix of the key, contradicting the claim\'s "the directory\'s own name
is the key prefix". -/
theorem c7_counterexample :
    uploadDirectory (fun _ => none) "data/" [FNode.file "a"] = Except.ok ["a"]
      ∧ ("a" : String) ≠ "data/a" := by
  constructor
  · simp only [uploadDirectory, walkList, walkNode]
    rfl
  · decide

/-- C7 (corrected, scoped to well-formed roots): when `localPath` renders a
well-formed directory path — an optional leading separator followed by one or
more separator-free elements none of which is "." or ".." (so no trailing
separator) — and every entry name in the tree is such an element, then with
every upload succeeding: if the tree holds no walk error the upload returns
exactly one key per regular file, the slash-joined path of the file relative
to the parent of the root, whose first element is the root directory\'s own
name `filepathBase localPath`; and if the tree holds a walk/stat error, the
whole upload aborts with the first such error in walk order. -/
theorem c7_theorem (put : String → Option GoError) (rooted : Bool)
    (comps : List String) (entries : List FNode)
    (hput : ∀ k, put k = none)
    (hcomps : comps ≠ []) (hnice : ∀ c ∈ comps, niceName c = true)
    (hentries : niceTreeList entries = true) :
    (firstErrList entries = none →
      uploadDirectory put (renderPath rooted comps) entries
        = Except.ok ((relFilesList entries).map
            (fun p => joinSlash (filepathBase (renderPath rooted comps) :: p))))
    ∧ ∀ e, firstErrList entries = some e →
      uploadDirectory put (renderPath rooted comps) entries = Except.error e := by
  obtain ⟨initc, lastc, rfl⟩ : ∃ initc lastc, comps = initc ++ [lastc] := by
    rcases List.eq_nil_or_concat' comps with h | ⟨initc, lastc, h⟩
    · exact absurd h hcomps
    · exact ⟨initc, lastc, h⟩
  have hni : ∀ c ∈ initc, niceName c = true := fun c hc => hnice c (by simp [hc])
  have hlast : niceName lastc = true := hnice lastc (by simp)
  have hbase := filepathBase_renderPath rooted initc lastc hni hlast
  have hw := walkList_keys put rooted initc lastc hput hni hlast entries []
    hentries (by simp)
  simp only [List.append_nil, List.nil_append] at hw
  constructor
  · intro hfe
    show walkList put (renderPath rooted (initc ++ [lastc]))
        (renderPath rooted (initc ++ [lastc])) entries = _
    rw [hbase, hw, hfe]
  · intro e hfe
    show walkList put (renderPath rooted (initc ++ [lastc]))
        (renderPath rooted (initc ++ [lastc])) entries = _
    rw [hw, hfe]

/-- C7 witness: the rooted-free root "data" (rendered from its single
element) with a file, a nested directory, and — in the second run — an
erroring entry. -/
theorem c7_theorem_witness :
    uploadDirectory (fun _ => none) (renderPath false ["data"])
        [FNode.file "a", FNode.dir "sub" [FNode.file "b"]]
      = Except.ok ["data/a", "data/sub/b"]
    ∧ uploadDirectory (fun _ => none) (renderPath false ["data"])
        [FNode.file "a", FNode.errEntry "bad" ⟨none, "boom"⟩]
      = Except.error ⟨none, "boom"⟩ := by
  constructor
  · have h := (c7_theorem (fun _ => none) false ["data"]
      [FNode.file "a", FNode.dir "sub" [FNode.file "b"]]
      (fun _ => rfl) (by simp) (by decide)
      (by simp only [niceTreeList, niceTreeNode]; decide)).1
      (by simp [firstErrList, firstErrNode])
    rw [h]
    simp only [relFilesList, relFilesNode]
    rfl
  · exact (c7_theorem (fun _ => none) false ["data"]
      [FNode.file "a", FNode.errEntry "bad" ⟨none, "boom"⟩]
      (fun _ => rfl) (by simp) (by decide)
      (by simp only [niceTreeList, niceTreeNode]; decide)).2
      ⟨none, "boom"⟩ (by simp [firstErrList, firstErrNode])


/-! ### C9: single-file upload key vs. remote fetch key -/

theorem filepathBase_eq_self_iff (p : String) (hne : p ≠ "")
    (hsl : p.data.getLast? ≠ some '/') :
    filepathBase p = p ↔ ¬ '/' ∈ p.data := by
  have hdata : p.data ≠ [] := by
    intro h
    exact hne (String.ext h)
  have hrev : p.data.reverse ≠ [] := by simpa using hdata
  obtain ⟨c, t, hct⟩ := List.exists_cons_of_ne_nil hrev
  have hc : ¬(c = '/') := by
    intro h
    apply hsl
    rw [← List.head?_reverse, hct, h]
    rfl
  have hcb : (c == '/') = false := by simpa using hc
  have hdrop : p.data.reverse.dropWhile (fun x => x == '/') = p.data.reverse := by
    rw [hct, List.dropWhile_cons_of_neg (by simp [hcb])]
  have htake : p.data.reverse.takeWhile (fun x => x != '/')
      = c :: t.takeWhile (fun x => x != '/') := by
    rw [hct, List.takeWhile_cons_of_pos (by simpa using hc)]
  unfold filepathBase
  rw [if_neg (by simpa using hdata)]
  simp only [hdrop, List.reverse_reverse]
  have hne₂ : (p.data.reverse.takeWhile (fun x => x != '/')).reverse ≠ [] := by
    rw [htake]
    simp
  rw [if_neg hne₂]
  constructor
  · intro h hmem
    have hdq := congrArg String.data h
    simp only at hdq
    have htw : p.data.reverse.takeWhile (fun x => x != '/') = p.data.reverse := by
      have := congrArg List.reverse hdq
      simpa using this
    rw [List.takeWhile_eq_self_iff] at htw
    have := htw '/' (by simpa using hmem)
    simp at this
  · intro hmem
    have htw : p.data.reverse.takeWhile (fun x => x != '/') = p.data.reverse := by
      rw [List.takeWhile_eq_self_iff]
      intro x hx
      have hxp : x ∈ p.data := by simpa using hx
      simp only [bne_iff_ne, ne_eq]
      intro hxe
      rw [hxe] at hxp
      exact hmem hxp
    apply String.ext
    simp [htw]

/-- C9: in a to-remote single-file transfer the object is uploaded under the
key `filepath.Base` of the "./"-stripped source path, while the remote fetch
command's URL references the stripped source path itself; for any stripped
path that can denote a regular file (nonempty, not ending in a separator) the
two keys coincide exactly when the stripped path contains no directory
separator. -/
theorem c9_theorem (src : String) (put : String → Option GoError)
    (hput : put (filepathBase (toRemoteUploadPath src)) = none)
    (hne : toRemoteUploadPath src ≠ "")
    (hsl : (toRemoteUploadPath src).data.getLast? ≠ some '/') :
    uploadToS3 put StatResult.statFile (toRemoteUploadPath src)
        = Except.ok [filepathBase (toRemoteUploadPath src)]
    ∧ toRemoteS3URL "b" src = "s3://" ++ "b" ++ "/" ++ toRemoteUploadPath src
    ∧ (filepathBase (toRemoteUploadPath src) = toRemoteUploadPath src
        ↔ ¬ '/' ∈ (toRemoteUploadPath src).data) := by
  refine ⟨?_, rfl, filepathBase_eq_self_iff _ hne hsl⟩
  unfold uploadToS3
  rw [hput]

/-- C9 witness: for source `./docs/readme.txt` the upload key `readme.txt`
differs from the fetch key `docs/readme.txt` (the stripped path contains a
separator); for source `./readme.txt` the two keys agree. -/
theorem c9_theorem_witness :
    (uploadToS3 (fun _ => none) StatResult.statFile (toRemoteUploadPath "./docs/readme.txt")
        = Except.ok [filepathBase (toRemoteUploadPath "./docs/readme.txt")]
      ∧ ¬ filepathBase (toRemoteUploadPath "./docs/readme.txt")
          = toRemoteUploadPath "./docs/readme.txt")
    ∧ filepathBase (toRemoteUploadPath "./readme.txt")
        = toRemoteUploadPath "./readme.txt" := by
  have h1 := c9_theorem "./docs/readme.txt" (fun _ => none) rfl (by decide) (by decide)
  have h2 := c9_theorem "./readme.txt" (fun _ => none) rfl (by decide) (by decide)
  refine ⟨⟨h1.1, ?_⟩, ?_⟩
  · rw [h1.2.2]
    decide
  · rw [h2.2.2]
    decide

/-! ### C8: the generated from-remote key -/

/-- C8 (counterexample): at unix time 0 the generated key is
`bcp-download-0`, not `transfer-download-0` as the claim states. -/
theorem c8_counterexample :
    fromRemoteUploadPath 0 = "bcp-download-0"
    ∧ fromRemoteUploadPath 0 ≠ "transfer-download-" ++ Nat.repr 0 := by
  constructor
  · rfl
  · decide

/-- C8 (amended): the generated object-store key prefix of a from-remote
transfer is `bcp-download-<unixtime>` (not `transfer-download-<unixtime>`),
derived from the current unix time; the generation is injective in the time,
so two runs started at distinct unix times generate distinct prefixes and
cannot collide. -/
theorem c8_theorem (t₁ t₂ : Nat) (h : t₁ ≠ t₂) :
    fromRemoteUploadPath t₁ ≠ fromRemoteUploadPath t₂ := by
  intro he
  apply h
  apply natRepr_inj
  apply String.ext
  have hd := congrArg String.data he
  simp only [fromRemoteUploadPath, String.data_append] at hd
  exact List.append_cancel_left hd

/-- C8 witness: the keys generated at unix times 0 and 1 differ. -/
theorem c8_theorem_witness :
    fromRemoteUploadPath 0 ≠ fromRemoteUploadPath 1 :=
  c8_theorem 0 1 (by decide)

/-! ### Orchestration trace lemmas -/

theorem ssmOp_snd (env : Env) (cmds : List String) (st : St) :
    (ssmOp env cmds st).2
      = ⟨st.cmdIdx + 1, st.trace ++ [Event.sendSSM st.cmdIdx cmds]⟩ := by
  unfold ssmOp runSSMCommandSt
  rcases h : runSSMCommand (env.ssmBeh st.cmdIdx) with e | o <;> simp [h]

theorem retryAux_state_invariant {σ : Type} (op : σ → Option GoError × σ) (m d : Nat)
    (Q : σ → σ → Prop) (hQ : ∀ s, Q s (op s).2)
    (htrans : ∀ s₁ s₂ s₃, Q s₁ s₂ → Q s₂ s₃ → Q s₁ s₃) :
    ∀ fuel a s, Q s (retryAux op m d a fuel s).2.1 := by
  intro fuel
  induction fuel with
  | zero =>
    intro a s
    rcases h : op s with ⟨r, s₂⟩
    have hq := hQ s
    rw [h] at hq
    rcases r with _ | e
    · simpa [retryAux, h] using hq
    · by_cases hb : isRetryableError (some e) = true <;>
        simpa [retryAux, h, hb] using hq
  | succ f ih =>
    intro a s
    rcases h : op s with ⟨r, s₂⟩
    have hq := hQ s
    rw [h] at hq
    rcases r with _ | e
    · simpa [retryAux, h] using hq
    · by_cases hb : isRetryableError (some e) = true
      · have hrec := ih (a + 1) s₂
        simp [retryAux, h, hb]
        exact htrans _ _ _ hq hrec
      · simpa [retryAux, h, hb] using hq

/-- The retry-wrapped SSM phases only append send events for their own
command list, and advance only the command counter. -/
theorem retry_ssm_trace (env : Env) (cmds : List String) (m d fuel a : Nat) (st : St) :
    ∃ l, (retryAux (ssmOp env cmds) m d a fuel st).2.1.trace = st.trace ++ l
      ∧ ∀ ev ∈ l, ∃ i, ev = Event.sendSSM i cmds := by
  refine retryAux_state_invariant (ssmOp env cmds) m d
    (fun s₁ s₂ => ∃ l, s₂.trace = s₁.trace ++ l ∧ ∀ ev ∈ l, ∃ i, ev = Event.sendSSM i cmds)
    ?_ ?_ fuel a st
  · intro s
    rw [ssmOp_snd]
    exact ⟨[Event.sendSSM s.cmdIdx cmds], rfl, by simp⟩
  · rintro s₁ s₂ s₃ ⟨l₁, h₁, hl₁⟩ ⟨l₂, h₂, hl₂⟩
    refine ⟨l₁ ++ l₂, ?_, ?_⟩
    · rw [h₂, h₁, List.append_assoc]
    · intro ev hev
      rcases List.mem_append.mp hev with h | h
      · exact hl₁ ev h
      · exact hl₂ ev h

/-- The retry-wrapped local-upload phase appends only upload events and leaves
the command counter unchanged. -/
theorem retry_upload_trace (env : Env) (m d fuel a : Nat) (p : Nat × St) :
    (retryAux (uploadOp env) m d a fuel p).2.1.2.cmdIdx = p.2.cmdIdx
    ∧ ∃ l, (retryAux (uploadOp env) m d a fuel p).2.1.2.trace = p.2.trace ++ l
      ∧ ∀ ev ∈ l, ∃ j r, ev = Event.s3Upload j r := by
  refine retryAux_state_invariant (uploadOp env) m d
    (fun p₁ p₂ => p₂.2.cmdIdx = p₁.2.cmdIdx
      ∧ ∃ l, p₂.2.trace = p₁.2.trace ++ l ∧ ∀ ev ∈ l, ∃ j r, ev = Event.s3Upload j r)
    ?_ ?_ fuel a p
  · rintro ⟨j, s⟩
    exact ⟨rfl, [Event.s3Upload j (env.uploadAttempts j)], rfl, by simp⟩
  · rintro p₁ p₂ p₃ ⟨hc₁, l₁, h₁, hl₁⟩ ⟨hc₂, l₂, h₂, hl₂⟩
    refine ⟨by rw [hc₂, hc₁], l₁ ++ l₂, ?_, ?_⟩
    · rw [h₂, h₁, List.append_assoc]
    · intro ev hev
      rcases List.mem_append.mp hev with h | h
      · exact hl₁ ev h
      · exact hl₂ ev h

/-- If the retry-wrapped download phase fails, every event it appended is a
download attempt recording a failure (`some` result). -/
theorem retry_download_err (env : Env) (m d : Nat) :
    ∀ fuel a j st, (retryAux (downloadOp env) m d a fuel (j, st)).1 ≠ none →
      ∃ l, (retryAux (downloadOp env) m d a fuel (j, st)).2.1.2.trace = st.trace ++ l
        ∧ ∀ ev ∈ l, ∃ j₂ e, ev = Event.s3Download j₂ (some e) := by
  intro fuel
  induction fuel with
  | zero =>
    intro a j st hres
    cases hd : env.downloadAttempts j with
    | none =>
      exfalso
      apply hres
      simp [retryAux, downloadOp, hd]
    | some e =>
      by_cases hb : isRetryableError (some e) = true <;>
        exact ⟨[Event.s3Download j (some e)], by simp [retryAux, downloadOp, hd, hb],
          by simp⟩
  | succ f ih =>
    intro a j st hres
    cases hd : env.downloadAttempts j with
    | none =>
      exfalso
      apply hres
      simp [retryAux, downloadOp, hd]
    | some e =>
      by_cases hb : isRetryableError (some e) = true
      · have hres₂ : (retryAux (downloadOp env) m d (a + 1) f
            (j + 1, ⟨st.cmdIdx, st.trace ++ [Event.s3Download j (some e)]⟩)).1 ≠ none := by
          intro h0
          apply hres
          simp [retryAux, downloadOp, hd, hb, h0]
        obtain ⟨l₂, hl₂, hevs⟩ := ih (a + 1) (j + 1)
          ⟨st.cmdIdx, st.trace ++ [Event.s3Download j (some e)]⟩ hres₂
        refine ⟨Event.s3Download j (some e) :: l₂, ?_, ?_⟩
        · simp only [retryAux, downloadOp, hd, hb, if_true]
          simp only [hl₂]
          simp
        · intro ev hev
          rcases List.mem_cons.mp hev with h | h
          · exact ⟨j, e, h⟩
          · exact hevs ev h
      · exact ⟨[Event.s3Download j (some e)], by simp [retryAux, downloadOp, hd, hb],
          by simp⟩

/-! ### C5: cleanup after a successful from-remote download -/

/-- C5: in every from-remote transfer whose download-from-store phase succeeds
(witnessed by a download attempt recorded with a nil result), the transfer
returns nil — whatever `cleanupS3Objects` returns, its error being only
logged — and the final recorded action is the cleanup call on the generated
key. -/
theorem c5_theorem (cfg : TransferConfig) (env : Env)
    (h : ∃ j, Event.s3Download j none ∈ (ExecuteFromRemoteWithClients cfg env).2) :
    (ExecuteFromRemoteWithClients cfg env).1 = none
    ∧ ∃ isDir pre, (ExecuteFromRemoteWithClients cfg env).2
        = pre ++ [Event.s3Cleanup cfg.bucketName (fromRemoteUploadPath env.nowUnix) isDir] := by
  obtain ⟨j, hj⟩ := h
  cases hchk : checkAWSCLIResult (env.ssmBeh 0) with
  | error e =>
    exfalso
    simp [ExecuteFromRemoteWithClients, checkAWSCLIInstalled, hchk] at hj
  | ok tool =>
    cases tool with
    | false =>
      exfalso
      simp [ExecuteFromRemoteWithClients, checkAWSCLIInstalled, hchk] at hj
    | true =>
      cases hprob : runSSMCommand (env.ssmBeh 1) with
      | error e =>
        exfalso
        simp [ExecuteFromRemoteWithClients, checkAWSCLIInstalled, runSSMCommandSt,
          hchk, hprob] at hj
      | ok out =>
        simp only [ExecuteFromRemoteWithClients, checkAWSCLIInstalled,
          runSSMCommandSt, hchk, hprob] at hj ⊢
        simp at hj ⊢
        cases hupl : (retryOperation
            (ssmOp env [fromRemoteUploadCommand cfg env.nowUnix (trimSpace out == "directory")])
            cfg.maxRetries cfg.retryDelay
            ⟨2, [Event.sendSSM 0 ["which aws"],
                 Event.sendSSM 1 [fromRemoteCheckDirCommand cfg]]⟩).1 with
        | some e =>
          exfalso
          rw [hupl] at hj
          simp at hj
          obtain ⟨l, hl, hevs⟩ := retry_ssm_trace env
            [fromRemoteUploadCommand cfg env.nowUnix (trimSpace out == "directory")]
            cfg.maxRetries cfg.retryDelay cfg.maxRetries 0
            ⟨2, [Event.sendSSM 0 ["which aws"],
                 Event.sendSSM 1 [fromRemoteCheckDirCommand cfg]]⟩
          simp only [retryOperation] at hj
          rw [hl] at hj
          rcases List.mem_append.mp hj with hm | hm
          · simp at hm
          · obtain ⟨i, hi⟩ := hevs _ hm
            exact Event.noConfusion hi
        | none =>
          rw [hupl] at hj
          simp at hj
          cases hdl : (retryOperation (downloadOp env) cfg.maxRetries cfg.retryDelay
              (0, (retryOperation
                (ssmOp env [fromRemoteUploadCommand cfg env.nowUnix (trimSpace out == "directory")])
                cfg.maxRetries cfg.retryDelay
                ⟨2, [Event.sendSSM 0 ["which aws"],
                     Event.sendSSM 1 [fromRemoteCheckDirCommand cfg]]⟩).2.1)).1 with
          | some e =>
            exfalso
            rw [hdl] at hj
            simp at hj
            obtain ⟨l₂, hl₂, hevs₂⟩ := retry_download_err env cfg.maxRetries cfg.retryDelay
              cfg.maxRetries 0 0
              ((retryOperation
                (ssmOp env [fromRemoteUploadCommand cfg env.nowUnix (trimSpace out == "directory")])
                cfg.maxRetries cfg.retryDelay
                ⟨2, [Event.sendSSM 0 ["which aws"],
                     Event.sendSSM 1 [fromRemoteCheckDirCommand cfg]]⟩).2.1)
              (by
                simp only [retryOperation] at hdl ⊢
                rw [hdl]
                simp)
            simp only [retryOperation] at hj hl₂
            rw [hl₂] at hj
            rcases List.mem_append.mp hj with hm | hm
            · obtain ⟨l, hl, hevs⟩ := retry_ssm_trace env
                [fromRemoteUploadCommand cfg env.nowUnix (trimSpace out == "directory")]
                cfg.maxRetries cfg.retryDelay cfg.maxRetries 0
                ⟨2, [Event.sendSSM 0 ["which aws"],
                     Event.sendSSM 1 [fromRemoteCheckDirCommand cfg]]⟩
              simp only [retryOperation] at hl
              rw [hl] at hm
              rcases List.mem_append.mp hm with hm₂ | hm₂
              · simp at hm₂
              · obtain ⟨i, hi⟩ := hevs _ hm₂
                exact Event.noConfusion hi
            · obtain ⟨j₂, e₂, he₂⟩ := hevs₂ _ hm
              simp at he₂
          | none =>
            constructor
            · cases env.cleanupResult <;> rfl
            · cases env.cleanupResult <;> cases hb : trimSpace out == "directory"
              · exact Or.inl ⟨_, rfl⟩
              · exact Or.inr ⟨_, rfl⟩
              · exact Or.inl ⟨_, rfl⟩
              · exact Or.inr ⟨_, rfl⟩

/-- C5 witness: a concrete from-remote run whose download succeeds on the
first attempt and whose cleanup errors (`cleanup denied`) still returns nil,
with the cleanup call on the generated key `bcp-download-42` as its final
action. -/
theorem c5_theorem_witness :
    (ExecuteFromRemoteWithClients
        ⟨"/tmp/src", "i-1", "/dst", "bkt", 0, 1, false⟩
        ⟨fun _ => CmdBehavior.sent (fun _ => some ⟨CmdStatus.success, "/usr/bin/aws", ""⟩),
         fun _ => none, fun _ => none, some ⟨none, "cleanup denied"⟩, 42⟩).1 = none
    ∧ ∃ isDir pre,
        (ExecuteFromRemoteWithClients
          ⟨"/tmp/src", "i-1", "/dst", "bkt", 0, 1, false⟩
          ⟨fun _ => CmdBehavior.sent (fun _ => some ⟨CmdStatus.success, "/usr/bin/aws", ""⟩),
           fun _ => none, fun _ => none, some ⟨none, "cleanup denied"⟩, 42⟩).2
          = pre ++ [Event.s3Cleanup "bkt" (fromRemoteUploadPath 42) isDir] :=
  c5_theorem _ _ ⟨0, by decide⟩

/-! ### C6: missing remote tool stops the fetch command -/

theorem toRemoteDownloadCommand_ne_which (cfg : TransferConfig) :
    toRemoteDownloadCommand cfg ≠ "which aws" := by
  unfold toRemoteDownloadCommand
  by_cases hd : cfg.isDirectory
  · simp only [if_pos hd]
    intro h
    have h2 := congrArg String.data h
    simp [String.data_append] at h2
  · simp only [if_neg hd]
    intro h
    have h2 := congrArg String.data h
    simp [String.data_append] at h2

/-- C6: in every to-remote transfer in which the AWS-CLI presence check
reports the tool absent, the transfer returns an error (it never returns nil)
and the remote fetch command is never sent: no SSM command issued during the
run carries the fetch command line. -/
theorem c6_theorem (cfg : TransferConfig) (env : Env)
    (h : checkAWSCLIResult (env.ssmBeh 0) = Except.ok false) :
    (ExecuteToRemoteWithClients cfg env).1 ≠ none
    ∧ ∀ i cmds, Event.sendSSM i cmds ∈ (ExecuteToRemoteWithClients cfg env).2 →
        toRemoteDownloadCommand cfg ∉ cmds := by
  obtain ⟨hidx, l, hl, hevs⟩ :=
    retry_upload_trace env cfg.maxRetries cfg.retryDelay cfg.maxRetries 0 (0, ⟨0, []⟩)
  have hidx0 : (retryAux (uploadOp env) cfg.maxRetries cfg.retryDelay 0 cfg.maxRetries
      (0, ⟨0, []⟩)).2.1.2.cmdIdx = 0 := by simpa using hidx
  have hl0 : (retryAux (uploadOp env) cfg.maxRetries cfg.retryDelay 0 cfg.maxRetries
      (0, ⟨0, []⟩)).2.1.2.trace = l := by simpa using hl
  simp only [ExecuteToRemoteWithClients, checkAWSCLIInstalled, retryOperation]
  rw [hidx0, h]
  cases hup : (retryAux (uploadOp env) cfg.maxRetries cfg.retryDelay 0 cfg.maxRetries
      (0, ⟨0, []⟩)).1 with
  | some e =>
    constructor
    · simp
    · intro i cmds hmem
      simp at hmem
      rw [hl0] at hmem
      obtain ⟨j, r, hev⟩ := hevs _ hmem
      exact Event.noConfusion hev
  | none =>
    constructor
    · simp
    · intro i cmds hmem
      simp at hmem
      rw [hl0] at hmem
      rcases hmem with hmem | hmem
      · obtain ⟨j, r, hev⟩ := hevs _ hmem
        exact Event.noConfusion hev
      · obtain ⟨hi, hc⟩ := hmem
        rw [hc]
        simp [toRemoteDownloadCommand_ne_which cfg]

/-- C6 witness: a concrete run whose `which aws` probe reports no `/aws` path
aborts with an error, and no issued command carries the fetch command. -/
theorem c6_theorem_witness :
    (ExecuteToRemoteWithClients
        ⟨"./f.txt", "i-1", "/dst", "bkt", 0, 1, false⟩
        ⟨fun _ => CmdBehavior.sent (fun _ => some ⟨CmdStatus.success, "", ""⟩),
         fun _ => none, fun _ => none, none, 7⟩).1 ≠ none
    ∧ ∀ i cmds, Event.sendSSM i cmds ∈ (ExecuteToRemoteWithClients
        ⟨"./f.txt", "i-1", "/dst", "bkt", 0, 1, false⟩
        ⟨fun _ => CmdBehavior.sent (fun _ => some ⟨CmdStatus.success, "", ""⟩),
         fun _ => none, fun _ => none, none, 7⟩).2 →
        toRemoteDownloadCommand ⟨"./f.txt", "i-1", "/dst", "bkt", 0, 1, false⟩ ∉ cmds :=
  c6_theorem _ _ (by rfl)

/-! ### C10: preflight checks are outside the retry executor -/

/-- C10: the AWS-CLI presence check — and, from-remote, the directory
probe — run outside the retry executor.  From-remote: a check error aborts
the whole transfer at once with the wrapped error after exactly one issued
SSM command, and (with the tool present) a probe error aborts with its
wrapped error after exactly two issued SSM commands — in both cases with no
second attempt, whatever the error's retryability.  To-remote: if the
presence check's behaviour is an error, the transfer never returns nil, a
run that issued the check returns exactly the wrapped check error, and no
SSM command other than the single `which aws` probe is ever issued. -/
theorem c10_theorem (cfg : TransferConfig) (env : Env) :
    (∀ e, checkAWSCLIResult (env.ssmBeh 0) = Except.error e →
      ExecuteFromRemoteWithClients cfg env
        = (some (wrapErr "failed to check AWS CLI installation: " e),
           [Event.sendSSM 0 ["which aws"]]))
    ∧ (∀ e, checkAWSCLIResult (env.ssmBeh 0) = Except.ok true →
        runSSMCommand (env.ssmBeh 1) = Except.error e →
        ExecuteFromRemoteWithClients cfg env
          = (some (wrapErr "failed to check if source is directory: " e),
             [Event.sendSSM 0 ["which aws"],
              Event.sendSSM 1 [fromRemoteCheckDirCommand cfg]]))
    ∧ (∀ e, checkAWSCLIResult (env.ssmBeh 0) = Except.error e →
        (ExecuteToRemoteWithClients cfg env).1 ≠ none
        ∧ (Event.sendSSM 0 ["which aws"] ∈ (ExecuteToRemoteWithClients cfg env).2 →
            (ExecuteToRemoteWithClients cfg env).1
              = some (wrapErr "failed to check AWS CLI installation: " e))
        ∧ ∀ i cmds, Event.sendSSM i cmds ∈ (ExecuteToRemoteWithClients cfg env).2 →
            i = 0 ∧ cmds = ["which aws"]) := by
  refine ⟨?_, ?_, ?_⟩
  · intro e hchk
    simp [ExecuteFromRemoteWithClients, checkAWSCLIInstalled, hchk]
  · intro e hchk hprob
    simp [ExecuteFromRemoteWithClients, checkAWSCLIInstalled, runSSMCommandSt,
      hchk, hprob]
  · intro e hchk
    obtain ⟨hidx, l, hl, hevs⟩ :=
      retry_upload_trace env cfg.maxRetries cfg.retryDelay cfg.maxRetries 0 (0, ⟨0, []⟩)
    have hidx0 : (retryAux (uploadOp env) cfg.maxRetries cfg.retryDelay 0 cfg.maxRetries
        (0, ⟨0, []⟩)).2.1.2.cmdIdx = 0 := by simpa using hidx
    have hl0 : (retryAux (uploadOp env) cfg.maxRetries cfg.retryDelay 0 cfg.maxRetries
        (0, ⟨0, []⟩)).2.1.2.trace = l := by simpa using hl
    simp only [ExecuteToRemoteWithClients, checkAWSCLIInstalled, retryOperation]
    rw [hidx0, hchk]
    cases hup : (retryAux (uploadOp env) cfg.maxRetries cfg.retryDelay 0 cfg.maxRetries
        (0, ⟨0, []⟩)).1 with
    | some e₂ =>
      refine ⟨by simp, ?_, ?_⟩
      · intro hmem
        exfalso
        simp at hmem
        rw [hl0] at hmem
        obtain ⟨j, r, hev⟩ := hevs _ hmem
        exact Event.noConfusion hev
      · intro i cmds hmem
        exfalso
        simp at hmem
        rw [hl0] at hmem
        obtain ⟨j, r, hev⟩ := hevs _ hmem
        exact Event.noConfusion hev
    | none =>
      refine ⟨by simp, by intro hmem; simp, ?_⟩
      intro i cmds hmem
      simp at hmem
      rw [hl0] at hmem
      rcases hmem with hmem | hmem
      · obtain ⟨j, r, hev⟩ := hevs _ hmem
        exact Event.noConfusion hev
      · exact hmem

/-- C10 witness: with a retryable-looking send failure (`timeout`) on the
first SSM command, the from-remote transfer aborts at once with the wrapped
check error after exactly one issued command. -/
theorem c10_theorem_witness :
    ExecuteFromRemoteWithClients
        ⟨"/tmp/src", "i-1", "/dst", "bkt", 3, 2, false⟩
        ⟨fun _ => CmdBehavior.sendErr ⟨none, "timeout"⟩,
         fun _ => none, fun _ => none, none, 7⟩
      = (some (wrapErr "failed to check AWS CLI installation: "
          (sendWrapErr ⟨none, "timeout"⟩)),
         [Event.sendSSM 0 ["which aws"]]) :=
  (c10_theorem _ _).1 _ (by rfl)
